import Mathlib

/-!
# Verification of the `makesure` change-analysis engine

This file gives a shallow embedding, in Lean 4, of the core of the
`makesure`/`distill` code-change governance engine (TypeScript), and proves
properties of it.  Each definition is translated from the corresponding
TypeScript source:

* `src/lib/watches/utils.ts` — shared watch post-processing
  (`runWithStdin`, `parseLineRange`, `createFilterResult`, `processFilter`);
* `src/lib/watches/jq.ts` — the `jq` watch and the `regex` watch
  (`jqFilter`, `regexFilter`);
* the tree-sitter `tsq` watch — the match-processing loop of `tsqFilter`;
* `src/lib/configuration/resolver.ts` — `parseUseReference`,
  `resolveSignal`, `resolveWatch`, `resolveReport`;
* `src/lib/processing/runner.ts` — `matchesInclude`, `getFileVersions`,
  `processSignal`, `processFiles`.

External collaborators (the `minimatch` glob matcher, the `jq` and `diff`
subprocesses, the tree-sitter parser and the Handlebars report renderer)
are modelled as parameters: the runner and watch post-processing are
proved for every behaviour of those collaborators.  Asynchronous
JavaScript functions that can reject are modelled in the `Except String`
monad; `Promise` rejection is `Except.error`.
-/

-- Decidable equality of `Except` results, for evaluating the embedded
-- operations at concrete inputs.
deriving instance DecidableEq for Except

namespace Makesure

/-! ## Generic list/char helpers used by the embeddings -/

/-- Strip an expected literal sequence from the front of a char list:
`some rest` when `cs = pre ++ rest`, otherwise `none`. -/
def stripPre : List Char → List Char → Option (List Char)
  | [], cs => some cs
  | _ :: _, [] => none
  | p :: ps, c :: cs => if c = p then stripPre ps cs else none

/-- Split a char list into its maximal leading run of ASCII digits and the
remainder (the behaviour of a greedy `\d*` at the current position). -/
def takeDigits : List Char → List Char × List Char
  | [] => ([], [])
  | c :: cs =>
    if c.isDigit then
      let (ds, rest) := takeDigits cs
      (c :: ds, rest)
    else ([], c :: cs)

/-- Numeric value of a digit run (what `Number.parseInt(_, 10)` returns on an
all-digit string; JavaScript float imprecision above 2^53 is not modelled). -/
def natOfDigits (ds : List Char) : Nat :=
  ds.foldl (fun n c => n * 10 + (c.toNat - 48)) 0

/-- `true` when the first list is a leading segment of the second. -/
def startsWithL : List Char → List Char → Bool
  | [], _ => true
  | _ :: _, [] => false
  | a :: as, b :: bs => a == b && startsWithL as bs

/-- `true` when the first list occurs contiguously inside the second. -/
def hasSub (needle : List Char) : List Char → Bool
  | [] => startsWithL needle []
  | b :: bs => startsWithL needle (b :: bs) || hasSub needle bs

/-! ## Data model: file changes and file versions (`src/lib/diff/parser.ts`)

Only the fields consulted by the processing runner are embedded: the
runner treats a `File` holistically through `oldPath`, `newPath` and
`type` (hunks, modes and revisions are never read by it). -/

/-- Change kind of a `File` record (`FileType` in `parser.ts`). -/
inductive FileType
  | add | copy | delete | modify | rename
deriving DecidableEq, Repr

/-- A file-change record, restricted to the fields the runner reads.
JavaScript's falsy test `file.newPath || file.oldPath` treats the empty
string as absent, so paths are plain strings here. -/
structure File where
  oldPath : String
  newPath : String
  type : FileType
deriving DecidableEq, Repr

/-- `FileVersions` from `parser.ts`: either side may be `null` (absent). -/
structure FileVersions where
  newContent : Option String
  oldContent : Option String
deriving DecidableEq, Repr

/-! ## FilterResult (`src/lib/watches/types.ts`)

At runtime a symbolic-context value is an array whose elements are arrays
of string-keyed records (see `regexFilter` and `tsqFilter`, which push
`[contexts]` where `contexts : Record<string, string>[]`).  A JavaScript
object literal keeps its keys in insertion order, so a record is embedded
as an ordered association list. -/

/-- A JavaScript object with string values, keys in insertion order. -/
abbrev JRecord := List (String × String)

/-- One element of an extractor's `context` array: an array of records. -/
abbrev ContextEntry := List JRecord

/-- `lineRange` of a FilterResult.  `end` is inclusive; the source computes
`start + lines - 1` on JavaScript numbers, which can be `-1` (for a
`+0,0` hunk), so the end bound is an integer. -/
structure LineRange where
  start : Nat
  stop : Int
deriving DecidableEq, Repr

/-- `FilterResult`: diff text, the two artifacts, optional line range and
optional symbolic context. -/
structure FilterResult where
  diffText : String
  leftArtifact : String
  rightArtifact : String
  lineRange : Option LineRange := none
  context : Option (List ContextEntry) := none
deriving DecidableEq, Repr

/-! ## `src/lib/watches/utils.ts` -/

/-- Outcome of a spawned child process as observed by the `close` handler:
exit code (`none` when the process was killed by a signal), accumulated
stdout and stderr. -/
structure ProcOutcome where
  code : Option Int
  stdout : String
  stderr : String
deriving DecidableEq, Repr

/-- How JavaScript stringifies the exit code inside a template literal. -/
def codeString : Option Int → String
  | none => "null"
  | some n => toString n

/-- `runWithStdin(command, args, input)` from `utils.ts`, as a function of
the spawned process's outcome.  Resolves with stdout when the exit code is
zero, or when stdout is nonempty (`else if (stdout)`); rejects otherwise.
`args` and `input` determine the outcome of the real subprocess and are
kept only for signature fidelity. -/
def runWithStdin (command : String) (_args : List String) (_input : String)
    (outcome : ProcOutcome) : Except String String :=
  if outcome.code = some 0 then .ok outcome.stdout
  else if outcome.stdout ≠ "" then .ok outcome.stdout
  else .error (command ++ " exited with code " ++ codeString outcome.code ++ ": " ++ outcome.stderr)

/-- The literal chars of `"@@ -"`, the fixed head of a hunk header. -/
def hunkHeadPre : List Char := ['@', '@', ' ', '-']

/-- The literal chars of `" +"` between the old and new ranges. -/
def hunkMid : List Char := [' ', '+']

/-- The literal chars of the closing `" @@"`. -/
def hunkTail : List Char := [' ', '@', '@']

/-- The optional `(?:,\d+)?` after the old-side start.  When the group
cannot match (no comma, or a comma not followed by a digit) the regex
engine continues at the same position; a consumed group that is later
contradicted would be retried without the group, which then fails on the
literal `" +"` anyway, so no further backtracking is observable. -/
def skipCommaDigits (cs : List Char) : List Char :=
  if cs.head? = some ',' then
    let (b, r) := takeDigits cs.tail
    if b = [] then cs else r
  else cs

/-- Matching of `/^@@ -\d+(?:,\d+)? \+(\d+)(?:,(\d+))? @@/` against the
start of one line, returning the captured new-side `(start, length)` with
the length defaulting to 1 when the `,length` group is absent
(`match[2] ? parseInt(match[2]) : 1` in `parseLineRange`). -/
def matchHunkHeaderChars (cs : List Char) : Option (Nat × Nat) :=
  match stripPre hunkHeadPre cs with
  | none => none
  | some r1 =>
    let (a, r2) := takeDigits r1
    if a = [] then none
    else
      match stripPre hunkMid (skipCommaDigits r2) with
      | none => none
      | some r4 =>
        let (c, r5) := takeDigits r4
        if c = [] then none
        else
          if r5.head? = some ',' then
            let (d, r6) := takeDigits r5.tail
            if d = [] then none
            else (stripPre hunkTail r6).map fun _ => (natOfDigits c, natOfDigits d)
          else (stripPre hunkTail r5).map fun _ => (natOfDigits c, 1)

/-- Captured `(start, length)` mapped to the returned record
`{start, end: start + lines - 1}`. -/
def toLineRange (p : Nat × Nat) : LineRange :=
  { start := p.1, stop := (p.1 : Int) + p.2 - 1 }

/-- The lines of a char sequence, split on the newline character (what
`diffText.split` on `\n` yields; `diff -u` output uses `\n` only). -/
def splitOnNl : List Char → List (List Char)
  | [] => [[]]
  | c :: rest =>
    if c = '\n' then [] :: splitOnNl rest
    else
      match splitOnNl rest with
      | [] => [[c]]
      | l :: ls => (c :: l) :: ls

/-- `parseLineRange(diffText)` from `utils.ts`.  The regex carries the `m`
flag and is anchored with `^`, so `String.match` finds the earliest
position that is the start of a line and matches; that is the first line
(in order) whose text matches the pattern. -/
def parseLineRange (diffText : String) : Option LineRange :=
  ((splitOnNl diffText.toList).findSome? matchHunkHeaderChars).map toLineRange

/-- `createFilterResult(left, right, shouldExtractLineRange)` from
`utils.ts`.  The external `diff -u` subprocess (`createDiffText`, which
always resolves, with `''` on spawn failure) is the parameter `diffFn`. -/
def createFilterResult (diffFn : String → String → String)
    (leftArtifact rightArtifact : String) (shouldExtractLineRange : Bool) :
    Option FilterResult :=
  if leftArtifact = rightArtifact then none
  else
    let diffText := diffFn leftArtifact rightArtifact
    let lineRange := if shouldExtractLineRange then parseLineRange diffText else none
    some { diffText, leftArtifact, rightArtifact, lineRange, context := none }

/-! ### Context serialization and merging (`processFilter`)

`processFilter` deduplicates context entries through a
`Set<string>` of their `JSON.stringify` serializations and then maps
`JSON.parse` back, which restores a structurally identical value with the
same key order.  The serializer below embeds `JSON.stringify` on the
values that actually occur (arrays of records of strings); string
escaping covers the backslash, the quote and the common control
characters. -/

/-- JSON string escaping as performed by `JSON.stringify`. -/
def jsonEscapeChar (c : Char) : String :=
  if c = '\\' then "\\\\"
  else if c = '"' then "\\\""
  else if c = '\n' then "\\n"
  else if c = '\r' then "\\r"
  else if c = '\t' then "\\t"
  else String.singleton c

/-- `JSON.stringify` of a string value. -/
def jsonString (s : String) : String :=
  "\"" ++ String.join (s.toList.map jsonEscapeChar) ++ "\""

/-- `JSON.stringify` of one record, keys in insertion order. -/
def serializeRecord (r : JRecord) : String :=
  "\x7b" ++ String.intercalate "," (r.map fun p => jsonString p.1 ++ ":" ++ jsonString p.2) ++ "\x7d"

/-- `JSON.stringify` of one context entry (an array of records). -/
def serializeEntry (e : ContextEntry) : String :=
  "[" ++ String.intercalate "," (e.map serializeRecord) ++ "]"

/-- The `Set<string>`-based merge in `processFilter`: entries of
`left.context` then `right.context` are inserted in order, an entry being
dropped when its serialization was already seen.  (The source stores the
serializations and parses them back; parsing a stringified entry restores
the entry itself, so the merge is modelled directly on entries.) -/
def mergeContexts (ls rs : List ContextEntry) : List ContextEntry :=
  (ls ++ rs).foldl
    (fun acc c => if acc.any (fun e => serializeEntry e = serializeEntry c) then acc else acc ++ [c])
    []

/-- What a kind-specific extractor returns for one side:
`{text, context}` (`ExtractedContent` in `utils.ts`). -/
structure ExtractedContent where
  context : List ContextEntry
  text : String
deriving DecidableEq, Repr

/-- `processFilter(versions, extractor)` from `utils.ts`: short-circuit
when both sides are absent, run the extractor on each side (errors
propagate), build the FilterResult and attach the merged context when the
result is non-null and any context was produced. -/
def processFilter (diffFn : String → String → String) (versions : FileVersions)
    (extractor : Option String → Except String ExtractedContent) :
    Except String (Option FilterResult) :=
  if versions.oldContent = none ∧ versions.newContent = none then .ok none
  else
    match extractor versions.oldContent with
    | .error e => .error e
    | .ok left =>
      match extractor versions.newContent with
      | .error e => .error e
      | .ok right =>
        let merged := mergeContexts left.context right.context
        let result := createFilterResult diffFn left.text right.text true
        .ok (result.map fun fr =>
          if merged.length > 0 then { fr with context := some merged } else fr)

/-! ## The `jq` watch (`src/lib/watches/jq.ts`)

The `jq` subprocess (`runJq`, via `runWithStdin`) is the parameter
`runJq : content → query → result`; it may reject.  Note the truthiness
test `versions.oldContent ? ... : ''`: empty content is not piped through
`jq` at all and extracts to the empty artifact. -/

/-- `jqFilter.apply(versions, config)`.  Line-range extraction is disabled
(`createFilterResult(_, _, false)`). -/
def jqFilterApply (diffFn : String → String → String)
    (runJq : String → String → Except String String)
    (versions : FileVersions) (query : String) :
    Except String (Option FilterResult) :=
  if versions.oldContent = none ∧ versions.newContent = none then .ok none
  else
    match (match versions.oldContent with
           | some c => if c ≠ "" then runJq c query else .ok ""
           | none => .ok "") with
    | .error e => .error e
    | .ok leftArtifact =>
      match (match versions.newContent with
             | some c => if c ≠ "" then runJq c query else .ok ""
             | none => .ok "") with
      | .error e => .error e
      | .ok rightArtifact =>
        .ok (createFilterResult diffFn leftArtifact rightArtifact false)

/-! ## The `regex` watch (`regexFilter` in `src/lib/watches/jq.ts`)

The decisive step for flag handling is the computation of the effective
flags and the construction `new RegExp(pattern, effectiveFlags)`, which
throws a `SyntaxError` on an invalid flags string. -/

/-- `const effectiveFlags = flags.includes('g') ? flags : flags + 'gm'`. -/
def regexEffectiveFlags (flags : String) : String :=
  if flags.toList.contains 'g' then flags else flags ++ "gm"

/-- Modelled from the ECMAScript `RegExp` contract (external to this
repository): a flags string is accepted exactly when every character is
one of `d g i m s u v y`, no character repeats, and `u` and `v` are not
both present. -/
def jsRegExpFlagsValid (flags : String) : Bool :=
  flags.toList.all (fun c => c ∈ ['d', 'g', 'i', 'm', 's', 'u', 'v', 'y'])
    && flags.toList.Nodup
    && !(flags.toList.contains 'u' && flags.toList.contains 'v')

/-! ## Configuration model (`src/lib/configuration/config.ts`) -/

/-- `include` of a watch: one glob or an array of globs. -/
inductive IncludePat
  | single (pat : String)
  | multi (pats : List String)
deriving DecidableEq, Repr

/-- The glob list `Array.isArray(include) ? include : [include]`. -/
def IncludePat.patterns : IncludePat → List String
  | .single p => [p]
  | .multi ps => ps

/-- `pattern` of an `ast-grep` watch: a string or `{context, selector}`. -/
inductive AstGrepPattern
  | simple (pattern : String)
  | withSelector (context selector : String)
deriving DecidableEq, Repr

/-- Kind-specific extraction part of the `WatchConfig` union. -/
inductive WatchExtraction
  | jq (query : String)
  | regex (pattern : String) (flags : Option String)
  | xpath (expression : String) (namespaces : List (String × String))
  | tsq (query : String) (capture : Option String) (language : Option String)
  | astGrep (language : String) (pattern : AstGrepPattern)
deriving DecidableEq, Repr

/-- A watch configuration: common `include` plus its extraction config. -/
structure WatchConfig where
  includePat : IncludePat
  extraction : WatchExtraction
deriving DecidableEq, Repr

/-- A report configuration (single `handlebars` variant). -/
structure ReportConfig where
  template : String
deriving DecidableEq, Repr

/-- A notify record: channel name to target, insertion-ordered. -/
abbrev NotifyConfig := List (String × String)

/-- Inline value or `{use: "#defined/<kind>/<name>"}` reference. -/
inductive Ref (α : Type)
  | inline (value : α)
  | use (s : String)
deriving DecidableEq, Repr

/-- A signal: watch + report + optional notify. -/
structure Signal where
  watch : Ref WatchConfig
  report : Ref ReportConfig
  notify : Option NotifyConfig
deriving DecidableEq, Repr

/-- The `defined` block: named reusable reports, signals and watches.
JavaScript records are embedded as insertion-ordered association lists;
`defined?.signals?.[name]` is an optional-chained lookup. -/
structure DefinedBlock where
  reports : Option (List (String × ReportConfig))
  signals : Option (List (String × Signal))
  watches : Option (List (String × WatchConfig))
deriving DecidableEq, Repr

/-- A concern: its declared sequence of signals. -/
structure Concern where
  signals : List (Ref Signal)
deriving DecidableEq, Repr

/-- The configuration root.  `Object.entries(config.concerns)` iterates in
insertion order, so the concern map is an ordered association list. -/
structure DistillConfig where
  concerns : List (String × Concern)
  defined : Option DefinedBlock
deriving DecidableEq, Repr

/-! ## Configuration resolver (`src/lib/configuration/resolver.ts`) -/

/-- The reference kind captured by `(signals|watches|reports)`. -/
inductive RefKind
  | signals | watches | reports
deriving DecidableEq, Repr

/-- The kind as it appears inside a reference string. -/
def RefKind.asString : RefKind → String
  | .signals => "signals"
  | .watches => "watches"
  | .reports => "reports"

/-- Error text of `parseUseReference` for a malformed reference. -/
def invalidRefMsg (use : String) : String :=
  "Invalid reference format: \"" ++ use ++
    "\". Expected \"#defined/<type>/<name>\" where type is signals, watches, or reports."

/-- Error text for a reference of the wrong kind, e.g.
`Expected a signal reference, got "watches" in "#defined/watches/x"`. -/
def kindMismatchMsg (expectedSingular : String) (got : RefKind) (use : String) : String :=
  "Expected a " ++ expectedSingular ++ " reference, got \"" ++ got.asString ++ "\" in \"" ++ use ++ "\""

/-- Error text for an unresolved name, e.g.
`Signal "x" not found in defined.signals`. -/
def notFoundMsg (kindCapitalized : String) (name : String) (table : String) : String :=
  kindCapitalized ++ " \"" ++ name ++ "\" not found in defined." ++ table

/-- A character the regex `.` can stand for (everything except the four
ECMAScript line terminators; the pattern has no `s` flag). -/
def jsDotChar (c : Char) : Bool :=
  c ≠ '\n' && c ≠ '\r' && c.val ≠ 0x2028 && c.val ≠ 0x2029

/-- The alternation `(signals|watches|reports)` followed by the literal
`/`: which kind word heads the remainder, and what follows it. -/
def refKindAndRest (afterHead : List Char) : Option (RefKind × List Char) :=
  match stripPre "signals/".toList afterHead with
  | some r => some (.signals, r)
  | none =>
    match stripPre "watches/".toList afterHead with
    | some r => some (.watches, r)
    | none =>
      match stripPre "reports/".toList afterHead with
      | some r => some (.reports, r)
      | none => none

/-- `parseUseReference(use)`: match
`/^#defined\/(signals|watches|reports)\/(.+)$/` and return the kind and
name.  `(.+)` requires at least one character and cannot cross a line
terminator; it otherwise takes everything up to the end of the string
(later slashes are part of the name). -/
def parseUseReference (use : String) : Except String (RefKind × String) :=
  match stripPre "#defined/".toList use.toList with
  | none => .error (invalidRefMsg use)
  | some afterHead =>
    match refKindAndRest afterHead with
    | none => .error (invalidRefMsg use)
    | some (kind, nameChars) =>
      if nameChars ≠ [] ∧ nameChars.all jsDotChar then
        .ok (kind, String.mk nameChars)
      else .error (invalidRefMsg use)

/-- `resolveSignal(ref, defined)`. -/
def resolveSignal (ref : Ref Signal) (defined : Option DefinedBlock) :
    Except String Signal :=
  match ref with
  | .inline s => .ok s
  | .use use =>
    match parseUseReference use with
    | .error e => .error e
    | .ok (kind, name) =>
      if kind ≠ .signals then .error (kindMismatchMsg "signal" kind use)
      else
        match (defined.bind (·.signals)).bind (List.lookup name) with
        | some s => .ok s
        | none => .error (notFoundMsg "Signal" name "signals")

/-- `resolveWatch(ref, defined)`. -/
def resolveWatch (ref : Ref WatchConfig) (defined : Option DefinedBlock) :
    Except String WatchConfig :=
  match ref with
  | .inline w => .ok w
  | .use use =>
    match parseUseReference use with
    | .error e => .error e
    | .ok (kind, name) =>
      if kind ≠ .watches then .error (kindMismatchMsg "watch" kind use)
      else
        match (defined.bind (·.watches)).bind (List.lookup name) with
        | some w => .ok w
        | none => .error (notFoundMsg "Watch" name "watches")

/-- `resolveReport(ref, defined)`. -/
def resolveReport (ref : Ref ReportConfig) (defined : Option DefinedBlock) :
    Except String ReportConfig :=
  match ref with
  | .inline r => .ok r
  | .use use =>
    match parseUseReference use with
    | .error e => .error e
    | .ok (kind, name) =>
      if kind ≠ .reports then .error (kindMismatchMsg "report" kind use)
      else
        match (defined.bind (·.reports)).bind (List.lookup name) with
        | some r => .ok r
        | none => .error (notFoundMsg "Report" name "reports")

/-! ## Processing runner (`src/lib/processing/runner.ts`)

The runner's collaborators are modelled as parameters bundled in
`RunnerEnv`:

* `minimatch` — the external glob matcher (`minimatch(filePath, pattern)`);
* `applyWatch` — the watch dispatcher from `watches/index.ts` (routes to
  the five extractors, any of which may reject: subprocess failure,
  `RegExp` compile error, tsq configuration contract violations);
* `executeReport` — the Handlebars renderer from `reports/index.ts`
  (returns the `ReportOutput`);
* `contentProvider` and `refs` — the `ProcessingContext`
  (`processing/types.ts`); the provider may reject on I/O failure, and
  absence is the value `none`, never an error. -/

/-- A rendered report.  Only the field the runner itself writes
(`reportOutput.notify = signal.notify`) is structural here; the rendered
payload is kept opaque as the renderer's output string. -/
structure ReportOutput where
  content : String
  notify : Option NotifyConfig := none
deriving DecidableEq, Repr

/-- The base/head revision pair of the processing context. -/
structure Refs where
  base : String
  head : String
deriving DecidableEq, Repr

/-- External collaborators and processing context of the runner. -/
structure RunnerEnv where
  minimatch : String → String → Bool
  applyWatch : WatchConfig → FileVersions → String → Except String (Option FilterResult)
  executeReport : ReportConfig → FilterResult → String → ReportOutput
  contentProvider : String → String → Except String (Option String)
  refs : Refs

/-- `const filePath = file.newPath || file.oldPath`: prefer the new path,
falling back to the old path when the new one is empty/absent. -/
def effectivePath (file : File) : String :=
  if file.newPath ≠ "" then file.newPath else file.oldPath

/-- `matchesInclude(filePath, include)`: normalize to a pattern array and
test `patterns.some((pattern) => minimatch(filePath, pattern))`. -/
def matchesInclude (mm : String → String → Bool) (filePath : String)
    (includePat : IncludePat) : Bool :=
  includePat.patterns.any fun pattern => mm filePath pattern

/-- `getFileVersions(file, context)`: fetch the old content at `refs.base`
unless the change is an `add`, and the new content at `refs.head` unless
it is a `delete`; a provider rejection propagates. -/
def getFileVersions (cp : String → String → Except String (Option String))
    (refs : Refs) (file : File) : Except String FileVersions :=
  match (if file.type ≠ FileType.add then cp refs.base file.oldPath else .ok none) with
  | .error e => .error e
  | .ok oldContent =>
    match (if file.type ≠ FileType.delete then cp refs.head file.newPath else .ok none) with
    | .error e => .error e
    | .ok newContent => .ok { newContent, oldContent }

/-- `processSignal(options)`: resolve the signal and its watch, gate on
the include globs, materialize versions, apply the watch, and render the
report.  Any rejection along the way propagates to the caller; the
`concernId` option is received but never read. -/
def processSignal (env : RunnerEnv) (_concernId : String)
    (defined : Option DefinedBlock) (file : File) (signalRef : Ref Signal) :
    Except String (List ReportOutput) :=
  let filePath := effectivePath file
  match resolveSignal signalRef defined with
  | .error e => .error e
  | .ok signal =>
    match resolveWatch signal.watch defined with
    | .error e => .error e
    | .ok watch =>
      if matchesInclude env.minimatch filePath watch.includePat then
        match getFileVersions env.contentProvider env.refs file with
        | .error e => .error e
        | .ok versions =>
          match env.applyWatch watch versions filePath with
          | .error e => .error e
          | .ok none => .ok []
          | .ok (some watchResult) =>
            match resolveReport signal.report defined with
            | .error e => .error e
            | .ok report =>
              let reportOutput := env.executeReport report watchResult filePath
              let reportOutput :=
                match signal.notify with
                | some n => { reportOutput with notify := some n }
                | none => reportOutput
              .ok [reportOutput]
      else .ok []

/-- Inner loop of `processFiles`: the signals of one concern, in declared
order, results appended in order. -/
def runSignals (env : RunnerEnv) (concernId : String) (defined : Option DefinedBlock)
    (file : File) : List (Ref Signal) → Except String (List ReportOutput)
  | [] => .ok []
  | signalRef :: rest =>
    match processSignal env concernId defined file signalRef with
    | .error e => .error e
    | .ok rs =>
      match runSignals env concernId defined file rest with
      | .error e => .error e
      | .ok more => .ok (rs ++ more)

/-- Middle loop of `processFiles`: concerns in `Object.entries` order. -/
def runConcerns (env : RunnerEnv) (defined : Option DefinedBlock) (file : File) :
    List (String × Concern) → Except String (List ReportOutput)
  | [] => .ok []
  | (concernId, concern) :: rest =>
    match runSignals env concernId defined file concern.signals with
    | .error e => .error e
    | .ok rs =>
      match runConcerns env defined file rest with
      | .error e => .error e
      | .ok more => .ok (rs ++ more)

/-- Outer loop of `processFiles`: files in diff order. -/
def runFiles (env : RunnerEnv) (config : DistillConfig) :
    List File → Except String (List ReportOutput)
  | [] => .ok []
  | file :: rest =>
    match runConcerns env config.defined file config.concerns with
    | .error e => .error e
    | .ok rs =>
      match runFiles env config rest with
      | .error e => .error e
      | .ok more => .ok (rs ++ more)

/-- `processFiles(files, config, context)`: the triple loop, collecting
every produced report into one sequence. -/
def processFiles (env : RunnerEnv) (files : List File) (config : DistillConfig) :
    Except String (List ReportOutput) :=
  runFiles env config files

/-- The traversal order of the runner: files in diff order × concerns in
declared order × signals in declared order. -/
def signalTriples (files : List File) (config : DistillConfig) :
    List (File × String × Ref Signal) :=
  files.flatMap fun file =>
    config.concerns.flatMap fun c =>
      c.2.signals.map fun signalRef => (file, c.1, signalRef)

/-- Total number of signals declared across all concerns. -/
def totalSignals (config : DistillConfig) : Nat :=
  (config.concerns.map fun c => c.2.signals.length).sum

/-- Reference traversal: process the (file, concernId, signal) triples one
by one in order, concatenating the produced reports, stopping at the
first failure.  `processFiles` is proved equal to this traversal over
`signalTriples`. -/
def traverseTriples (env : RunnerEnv) (defined : Option DefinedBlock) :
    List (File × String × Ref Signal) → Except String (List ReportOutput)
  | [] => .ok []
  | t :: rest =>
    match processSignal env t.2.1 defined t.1 t.2.2 with
    | .error e => .error e
    | .ok rs =>
      match traverseTriples env defined rest with
      | .error e => .error e
      | .ok more => .ok (rs ++ more)

/-! ## The `tsq` watch's match-processing loop (`tsqFilter`)

Tree-sitter itself (grammar loading, parsing, query evaluation) is
external; the loop over `query.matches(tree.rootNode)` inside
`extractNodes` is embedded as a function of the produced matches.  A
capture exposes its node's identity (`node.id`, a stable integer), its
byte span (`startIndex`/`endIndex`) and its source text. -/

/-- The node data read by the loop. -/
structure TSNode where
  id : Nat
  startIndex : Nat
  endIndex : Nat
  text : String
deriving DecidableEq, Repr

/-- One query capture: name and captured node. -/
structure TSCapture where
  name : String
  node : TSNode
deriving DecidableEq, Repr

/-- Spatial containment test from the maximality filter: `other` covers
`c` and is strictly larger on at least one side. -/
def strictContainsB (other c : TSCapture) : Bool :=
  decide (other.node.startIndex ≤ c.node.startIndex)
    && decide (other.node.endIndex ≥ c.node.endIndex)
    && (decide (other.node.startIndex < c.node.startIndex)
        || decide (other.node.endIndex > c.node.endIndex))

/-- Step 1 of the loop: the content captures of one match.  With a
configured capture name, the captures of that name; otherwise the
"maximal" captures — those not strictly contained in another capture of
the same match (`other !== c` is the engine's distinctness test). -/
def tsqContentCaptures (captureCfg : Option String) (captures : List TSCapture) :
    List TSCapture :=
  match captureCfg with
  | some nm => captures.filter fun c => decide (c.name = nm)
  | none =>
    captures.filter fun c =>
      ! captures.any fun other => decide (other ≠ c) && strictContainsB other c

/-- Accumulator of the loop: seen node ids, emitted node texts, and the
collected per-match context entries. -/
structure TsqAcc where
  seen : List Nat
  nodeTexts : List String
  contexts : List JRecord
deriving DecidableEq, Repr

/-- Step 2: push the text of each content capture whose node id has not
been seen (`Set`-based deduplication by node identity). -/
def tsqAddContent (acc : TsqAcc) (contentCaptures : List TSCapture) : TsqAcc :=
  contentCaptures.foldl
    (fun a c =>
      if c.node.id ∈ a.seen then a
      else { a with seen := a.seen ++ [c.node.id], nodeTexts := a.nodeTexts ++ [c.node.text] })
    acc

/-- `matchContext[c.name] = c.node.text` on a JavaScript object: update in
place when the key exists, else append. -/
def recUpsert (r : JRecord) (k v : String) : JRecord :=
  if r.any (fun p => decide (p.1 = k)) then
    r.map fun p => if p.1 = k then (k, v) else p
  else r ++ [(k, v)]

/-- Step 3: the context entry of one match — every capture that is not a
content capture contributes its name/text binding. -/
def tsqMatchContext (contentCaptures captures : List TSCapture) : JRecord :=
  captures.foldl
    (fun ctx c => if c ∈ contentCaptures then ctx else recUpsert ctx c.name c.node.text)
    []

/-- One iteration of `for (const match of matches)`. -/
def tsqProcessMatch (captureCfg : Option String) (acc : TsqAcc)
    (captures : List TSCapture) : TsqAcc :=
  let contentCaptures := tsqContentCaptures captureCfg captures
  let acc := tsqAddContent acc contentCaptures
  let matchContext := tsqMatchContext contentCaptures captures
  if matchContext = [] then acc
  else { acc with contexts := acc.contexts ++ [matchContext] }

/-- The whole loop of `extractNodes`, returning the extractor's
`{text, context}` pair: node texts joined by a blank line, and the
per-match context entries wrapped in a singleton array. -/
def tsqExtract (captureCfg : Option String) (matchList : List (List TSCapture)) :
    ExtractedContent :=
  let acc := matchList.foldl (tsqProcessMatch captureCfg) ⟨[], [], []⟩
  { text := String.intercalate "\n\n" acc.nodeTexts, context := [acc.contexts] }

/-! Specification-side notions for the tsq claim (from the spec's words,
for comparison with the loop above). -/

/-- A capture is maximal in its match when no capture of the match
strictly contains it. -/
def TsqMaximal (captures : List TSCapture) (c : TSCapture) : Prop :=
  ¬ ∃ other ∈ captures, strictContainsB other c = true

/-- First-occurrence deduplication of captures by node identity. -/
def dedupByIdAux (seen : List Nat) : List TSCapture → List TSCapture
  | [] => []
  | c :: cs =>
    if c.node.id ∈ seen then dedupByIdAux seen cs
    else c :: dedupByIdAux (c.node.id :: seen) cs

/-- Deduplication by node identity starting from nothing seen. -/
def dedupById (cs : List TSCapture) : List TSCapture :=
  dedupByIdAux [] cs

/-- The context entry contributed by one match, as the spec describes it:
the record built from the non-content captures, skipped when empty. -/
def tsqMatchEntry (captureCfg : Option String) (captures : List TSCapture) : Option JRecord :=
  let ctx := tsqMatchContext (tsqContentCaptures captureCfg captures) captures
  if ctx = [] then none else some ctx

/-- A capture spanning a whole function declaration (fixture). -/
def outerC : TSCapture :=
  { name := "fn", node := { id := 1, startIndex := 0, endIndex := 17, text := "function foo()" } }

/-- A capture spanning just the name inside `outerC`'s span (fixture). -/
def innerC : TSCapture :=
  { name := "name", node := { id := 2, startIndex := 9, endIndex := 12, text := "foo" } }

/-! Specification-side description of the hunk-header regex (from the
spec's words, for comparison with the matcher above). -/

/-- A nonempty run of ASCII digits (`\d+`). -/
def DigitsNE (ds : List Char) : Prop :=
  ds ≠ [] ∧ ∀ ch ∈ ds, ch.isDigit = true

/-- Declarative reading of
`^@@ -\d+(?:,\d+)? \+(\d+)(?:,(\d+))? @@` at the start of a line:
the line decomposes as the literal pieces around an old-side range, a
new-side start captured as `c`, and an optional `,length` captured as `d`
(`hasLen` records whether the length group matched; when it did not,
`d = 1` by default). -/
def IsHunkHeaderAt (cs : List Char) (c d : Nat) (hasLen : Bool) : Prop :=
  ∃ a bpart cds dds rest,
    cs = hunkHeadPre ++ a ++ bpart ++ hunkMid ++ cds ++ dds ++ hunkTail ++ rest ∧
    DigitsNE a ∧
    (bpart = [] ∨ ∃ b, DigitsNE b ∧ bpart = ',' :: b) ∧
    DigitsNE cds ∧ c = natOfDigits cds ∧
    (if hasLen then ∃ dd, DigitsNE dd ∧ dds = ',' :: dd ∧ d = natOfDigits dd
     else dds = [] ∧ d = 1)

/-! ## Fixtures for witnesses and counterexamples -/

/-- A trivial FilterResult used by runner fixtures. -/
def frFix : FilterResult :=
  { diffText := "d", leftArtifact := "l", rightArtifact := "r" }

/-- Runner environment in which every glob matches, every watch fires and
the report renders to a fixed string. -/
def envAllMatch : RunnerEnv where
  minimatch := fun _ _ => true
  applyWatch := fun _ _ _ => .ok (some frFix)
  executeReport := fun _ _ _ => { content := "report" }
  contentProvider := fun _ _ => .ok (some "content")
  refs := { base := "base", head := "head" }

/-- Runner environment in which no glob ever matches. -/
def envNoMatch : RunnerEnv where
  minimatch := fun _ _ => false
  applyWatch := fun _ _ _ => .ok (some frFix)
  executeReport := fun _ _ _ => { content := "report" }
  contentProvider := fun _ _ => .ok (some "content")
  refs := { base := "base", head := "head" }

/-- A modified file used by fixtures. -/
def fileFix : File :=
  { oldPath := "pkg/a.json", newPath := "pkg/a.json", type := .modify }

/-- A watch configuration used by fixtures. -/
def watchFix : WatchConfig :=
  { includePat := .single "*.json", extraction := .jq ".version" }

/-- A signal with an inline watch and report, used by fixtures. -/
def sigFix : Signal :=
  { watch := .inline watchFix, report := .inline { template := "t" }, notify := none }

/-- A signal whose watch reference dangles (`missing` is not defined). -/
def sigDangling : Signal :=
  { watch := .use "#defined/watches/missing", report := .inline { template := "t" },
    notify := none }

/-- A configuration whose concern `payments` declares a failing signal
(dangling watch reference) followed by a healthy signal. -/
def cfgFailFirst : DistillConfig :=
  { concerns := [("payments", { signals := [.inline sigDangling, .inline sigFix] })],
    defined := none }

/-- A one-concern, one-signal configuration. -/
def cfgOneSignal : DistillConfig :=
  { concerns := [("payments", { signals := [.inline sigFix] })], defined := none }

/-- A configuration whose single signal has a dangling watch reference. -/
def cfgDanglingOnly : DistillConfig :=
  { concerns := [("payments", { signals := [.inline sigDangling] })], defined := none }

/-! ## Theorems -/

section Theorems

/-! ### Claim C2 — absence on equality -/

/-- **C2** — For every watch kind and every file-version pair, equal
left/right extractor outputs produce the absence sentinel, and every
non-null FilterResult has differing artifacts.  Stated for the shared
`createFilterResult` (used directly by the `jq` and `xpath` watches), for
the shared `processFilter` wrapper (used by the `regex`, `tsq` and
`ast-grep` watches, for any extractor behaviour), and for the `jq` watch
itself, including the both-sides-absent case. -/
theorem claim_C2 :
    (∀ (diffFn : String → String → String) (l r : String) (b : Bool),
        l = r → createFilterResult diffFn l r b = none)
    ∧ (∀ (diffFn : String → String → String) (l r : String) (b : Bool) (fr : FilterResult),
        createFilterResult diffFn l r b = some fr →
          fr.leftArtifact ≠ fr.rightArtifact)
    ∧ (∀ (diffFn : String → String → String) (versions : FileVersions)
          (extractor : Option String → Except String ExtractedContent)
          (left right : ExtractedContent),
        extractor versions.oldContent = .ok left →
        extractor versions.newContent = .ok right →
        left.text = right.text →
        processFilter diffFn versions extractor = .ok none)
    ∧ (∀ (diffFn : String → String → String) (versions : FileVersions)
          (extractor : Option String → Except String ExtractedContent)
          (fr : FilterResult),
        processFilter diffFn versions extractor = .ok (some fr) →
          fr.leftArtifact ≠ fr.rightArtifact)
    ∧ (∀ (diffFn : String → String → String)
          (runJq : String → String → Except String String)
          (versions : FileVersions) (query : String),
        versions.oldContent = none → versions.newContent = none →
        jqFilterApply diffFn runJq versions query = .ok none)
    ∧ (∀ (diffFn : String → String → String)
          (runJq : String → String → Except String String)
          (versions : FileVersions) (query : String) (fr : FilterResult),
        jqFilterApply diffFn runJq versions query = .ok (some fr) →
          fr.leftArtifact ≠ fr.rightArtifact) := by
  refine ⟨?_, ?_, ?_, ?_, ?_, ?_⟩
  · intro diffFn l r b h
    simp [createFilterResult, h]
  · intro diffFn l r b fr h
    by_cases hlr : l = r
    · simp [createFilterResult, hlr] at h
    · simp only [createFilterResult, if_neg hlr, Option.some.injEq] at h
      cases h
      exact hlr
  · intro diffFn versions extractor left right hl hr htext
    unfold processFilter
    by_cases hnn : versions.oldContent = none ∧ versions.newContent = none
    · simp [hnn]
    · rw [if_neg hnn, hl, hr]
      simp [createFilterResult, htext]
  · intro diffFn versions extractor fr h
    unfold processFilter at h
    by_cases hnn : versions.oldContent = none ∧ versions.newContent = none
    · simp [hnn] at h
    · rw [if_neg hnn] at h
      cases hl : extractor versions.oldContent with
      | error e => rw [hl] at h; cases h
      | ok left =>
        cases hr : extractor versions.newContent with
        | error e => rw [hl, hr] at h; cases h
        | ok right =>
          rw [hl, hr] at h
          by_cases htext : left.text = right.text
          · simp [createFilterResult, htext] at h
          · simp only [createFilterResult, if_neg htext, Except.ok.injEq,
              Option.map, Option.some.injEq] at h
            by_cases hm : (mergeContexts left.context right.context).length > 0 <;>
              [rw [if_pos hm] at h; rw [if_neg hm] at h] <;> cases h <;> exact htext
  · intro diffFn runJq versions query h1 h2
    simp [jqFilterApply, h1, h2]
  · intro diffFn runJq versions query fr h
    unfold jqFilterApply at h
    by_cases hnn : versions.oldContent = none ∧ versions.newContent = none
    · simp [hnn] at h
    · rw [if_neg hnn] at h
      rcases hLeftRun :
          (match versions.oldContent with
           | some c => if c ≠ "" then runJq c query else .ok ""
           | none => (.ok "" : Except String String)) with e | leftArtifact
      · rw [hLeftRun] at h; cases h
      · rcases hRightRun :
            (match versions.newContent with
             | some c => if c ≠ "" then runJq c query else .ok ""
             | none => (.ok "" : Except String String)) with e | rightArtifact
        · rw [hLeftRun, hRightRun] at h; cases h
        · rw [hLeftRun, hRightRun] at h
          by_cases heq : leftArtifact = rightArtifact
          · simp [createFilterResult, heq] at h
          · simp only [createFilterResult, if_neg heq, Except.ok.injEq,
              Option.some.injEq] at h
            cases h
            exact heq

/-- Witness for C2 at concrete inputs: equal artifacts yield absence, and
the `jq` watch yields absence when both sides are absent. -/
theorem claim_C2_witness :
    createFilterResult (fun _ _ => "") "x" "x" true = none ∧
    jqFilterApply (fun _ _ => "") (fun _ q => .ok q)
      { newContent := none, oldContent := none } ".v" = .ok none :=
  ⟨claim_C2.1 (fun _ _ => "") "x" "x" true rfl,
   claim_C2.2.2.2.2.1 (fun _ _ => "") (fun _ q => .ok q)
     { newContent := none, oldContent := none } ".v" rfl rfl⟩

/-! ### Claim C9 — subprocess exit handling in `runWithStdin` -/

/-- **C9** — For a spawned process that exits with a nonzero code,
`runWithStdin` resolves with stdout whenever stdout is nonempty, and
rejects (with the command, code and stderr in the message) only when
stdout is completely empty; a zero exit code always resolves. -/
theorem claim_C9 (command : String) (args : List String) (input : String)
    (outcome : ProcOutcome) (n : Int) (hcode : outcome.code = some n) (hn : n ≠ 0) :
    (outcome.stdout ≠ "" →
      runWithStdin command args input outcome = .ok outcome.stdout)
    ∧ (outcome.stdout = "" →
      runWithStdin command args input outcome =
        .error (command ++ " exited with code " ++ toString n ++ ": " ++ outcome.stderr))
    ∧ (∀ outcome0 : ProcOutcome, outcome0.code = some 0 →
      runWithStdin command args input outcome0 = .ok outcome0.stdout) := by
  have hne : outcome.code ≠ some 0 := by
    rw [hcode]
    simp only [ne_eq, Option.some.injEq]
    exact hn
  refine ⟨?_, ?_, ?_⟩
  · intro hout
    simp [runWithStdin, hne, hout]
  · intro hout
    simp [runWithStdin, hne, hout, hcode, codeString, hn]
  · intro outcome0 h0
    simp [runWithStdin, h0]

/-- Witness for C9: `jq` exiting 5 with partial output resolves with the
output; `jq` exiting 5 with empty output rejects. -/
theorem claim_C9_witness :
    (runWithStdin "jq" [".v"] "input" { code := some 5, stdout := "partial", stderr := "boom" }
      = .ok "partial")
    ∧ (runWithStdin "jq" [".v"] "input" { code := some 5, stdout := "", stderr := "boom" }
      = .error "jq exited with code 5: boom") :=
  ⟨(claim_C9 "jq" [".v"] "input" { code := some 5, stdout := "partial", stderr := "boom" }
      5 rfl (by decide)).1 (by decide),
   (claim_C9 "jq" [".v"] "input" { code := some 5, stdout := "", stderr := "boom" }
      5 rfl (by decide)).2.1 rfl⟩

/-! ### Claim C5 — regex watch effective flags -/

/-- **C5** — The claim (and the source's own doc comments) state that the
compiled regex's flags always include both `g` and `m` on top of the user
flags, and that compilation succeeds for any valid user flags string.
The code computes `flags.includes('g') ? flags : flags + 'gm'`, so:
user flags `"m"` (valid) produce `"mgm"`, an invalid flags string on
which `new RegExp` throws; and user flags `"g"` produce just `"g"`,
which lacks the multiline flag. -/
theorem claim_C5 :
    jsRegExpFlagsValid "m" = true
    ∧ regexEffectiveFlags "m" = "mgm"
    ∧ jsRegExpFlagsValid "mgm" = false
    ∧ jsRegExpFlagsValid "g" = true
    ∧ regexEffectiveFlags "g" = "g"
    ∧ ("g".toList.contains 'm') = false := by
  refine ⟨by decide, ?_, by decide, by decide, ?_, by decide⟩
  · simp [regexEffectiveFlags]
  · simp [regexEffectiveFlags]

/-! ### Claim C3 — glob gating -/

/-- **C3** — For every file and signal (with the signal and watch
resolving), when the file's effective path — the new path, or the old
path when the new one is empty — matches none of the include globs, the
signal produces no report.  The conclusion holds for every content
provider and every watch dispatcher in the environment, so neither is
consulted for the skipped file. -/
theorem claim_C3 :
    (∀ (env : RunnerEnv) (concernId : String) (defined : Option DefinedBlock)
        (file : File) (signalRef : Ref Signal) (signal : Signal) (watch : WatchConfig),
      resolveSignal signalRef defined = .ok signal →
      resolveWatch signal.watch defined = .ok watch →
      (∀ pattern ∈ watch.includePat.patterns,
        env.minimatch (effectivePath file) pattern = false) →
      processSignal env concernId defined file signalRef = .ok [])
    ∧ (∀ file : File,
        (file.newPath ≠ "" → effectivePath file = file.newPath)
        ∧ (file.newPath = "" → effectivePath file = file.oldPath)) := by
  constructor
  · intro env concernId defined file signalRef signal watch hsig hwatch hglob
    have hmatch : matchesInclude env.minimatch (effectivePath file) watch.includePat = false := by
      simp only [matchesInclude, List.any_eq_false]
      intro pattern hp
      simp [hglob pattern hp]
    simp [processSignal, hsig, hwatch, hmatch]
  · intro file
    constructor <;> intro h <;> simp [effectivePath, h]

/-- Witness for C3: with a matcher that rejects everything, a concrete
signal against a concrete file yields no report. -/
theorem claim_C3_witness :
    processSignal envNoMatch "payments" none fileFix (.inline sigFix) = .ok [] :=
  claim_C3.1 envNoMatch "payments" none fileFix (.inline sigFix) sigFix watchFix
    rfl rfl (by intro pattern _; rfl)

/-! ### Claim C4 — hunk-header parsing: helper lemmas -/

lemma stripPre_eq_some_iff : ∀ {ps cs rest : List Char},
    stripPre ps cs = some rest ↔ cs = ps ++ rest := by
  intro ps
  induction ps with
  | nil =>
    intro cs rest
    simp [stripPre]
  | cons p ps ih =>
    intro cs rest
    cases cs with
    | nil => simp [stripPre]
    | cons c cs' =>
      simp only [stripPre, List.cons_append, List.cons.injEq]
      by_cases h : c = p
      · simp [h, ih]
      · simp [h]

lemma stripPre_self_append (ps rest : List Char) : stripPre ps (ps ++ rest) = some rest :=
  stripPre_eq_some_iff.mpr rfl

lemma takeDigits_eq_spec : ∀ {cs : List Char} {p : List Char × List Char},
    takeDigits cs = p →
    cs = p.1 ++ p.2 ∧ (∀ c ∈ p.1, c.isDigit = true) ∧
      (∀ c, p.2.head? = some c → c.isDigit = false) := by
  intro cs
  induction cs with
  | nil =>
    intro p h
    simp only [takeDigits] at h
    subst h
    simp
  | cons c cs' ih =>
    intro p h
    simp only [takeDigits] at h
    by_cases hc : c.isDigit
    · rw [if_pos hc] at h
      obtain ⟨h1, h2, h3⟩ := ih (p := takeDigits cs') rfl
      subst h
      refine ⟨by simpa using h1, ?_, by simpa using h3⟩
      intro x hx
      rcases List.mem_cons.mp hx with hx | hx
      · exact hx ▸ hc
      · exact h2 x hx
    · rw [if_neg hc] at h
      subst h
      refine ⟨rfl, by simp, ?_⟩
      intro x hx
      simp only [List.head?_cons, Option.some.injEq] at hx
      subst hx
      exact Bool.eq_false_iff.mpr hc

lemma takeDigits_of_parts : ∀ {ds rest : List Char},
    (∀ c ∈ ds, c.isDigit = true) →
    (∀ c, rest.head? = some c → c.isDigit = false) →
    takeDigits (ds ++ rest) = (ds, rest) := by
  intro ds
  induction ds with
  | nil =>
    intro rest _ hrest
    cases rest with
    | nil => simp [takeDigits]
    | cons c t =>
      have : c.isDigit = false := hrest c rfl
      simp [takeDigits, this]
  | cons d ds' ih =>
    intro rest hds hrest
    have hd : d.isDigit = true := hds d (List.mem_cons_self d ds')
    have hds' : ∀ c ∈ ds', c.isDigit = true := fun c hc => hds c (List.mem_cons_of_mem d hc)
    simp [takeDigits, hd, ih hds' hrest]

/-- The head of a list starting with the `" +"` or `" @@"` literal (or
with `','`) is not a digit. -/
lemma head_not_digit_of_cons {c : Char} {t : List Char} (h : c.isDigit = false) :
    ∀ x, (c :: t).head? = some x → x.isDigit = false := by
  intro x hx
  simp only [List.head?_cons, Option.some.injEq] at hx
  subst hx
  exact h

/-- Soundness of the matcher: a successful match decomposes the line as
the regex describes, with the captured values. -/
lemma matchHunkHeader_sound : ∀ {cs : List Char} {c d : Nat},
    matchHunkHeaderChars cs = some (c, d) → ∃ hasLen, IsHunkHeaderAt cs c d hasLen := by
  intro cs c d h
  unfold matchHunkHeaderChars at h
  cases hstrip : stripPre hunkHeadPre cs with
  | none => rw [hstrip] at h; cases h
  | some r1 =>
    rw [hstrip] at h
    dsimp only at h
    obtain ⟨a, r2, htd⟩ : ∃ a r2, takeDigits r1 = (a, r2) := ⟨_, _, rfl⟩
    rw [htd] at h
    dsimp only at h
    by_cases ha : a = []
    · rw [if_pos ha] at h; cases h
    · rw [if_neg ha] at h
      obtain ⟨hr1, hadig, hr2head⟩ := takeDigits_eq_spec htd
      dsimp only at hr1 hadig hr2head
      cases hstrip2 : stripPre hunkMid (skipCommaDigits r2) with
      | none => rw [hstrip2] at h; cases h
      | some r4 =>
        rw [hstrip2] at h
        dsimp only at h
        -- Decompose the optional `,\d+` group.
        have hbpart : ∃ bpart, r2 = bpart ++ hunkMid ++ r4 ∧
            (bpart = [] ∨ ∃ b, DigitsNE b ∧ bpart = ',' :: b) := by
          cases r2 with
          | nil =>
            rw [show skipCommaDigits [] = [] from rfl] at hstrip2
            rw [show stripPre hunkMid ([] : List Char) = none from rfl] at hstrip2
            cases hstrip2
          | cons c2 t2 =>
            by_cases hc2 : c2 = ','
            · subst hc2
              obtain ⟨b, r, htb⟩ : ∃ b r, takeDigits t2 = (b, r) := ⟨_, _, rfl⟩
              by_cases hb : b = []
              · rw [show skipCommaDigits (',' :: t2) = ',' :: t2 from by
                    simp [skipCommaDigits, htb, hb]] at hstrip2
                rw [show stripPre hunkMid (',' :: t2) = none from by
                    simp [stripPre, hunkMid]] at hstrip2
                cases hstrip2
              · rw [show skipCommaDigits (',' :: t2) = r from by
                    simp [skipCommaDigits, htb, hb]] at hstrip2
                have hr : r = hunkMid ++ r4 := stripPre_eq_some_iff.mp hstrip2
                obtain ⟨ht2, hbdig, _⟩ := takeDigits_eq_spec htb
                dsimp only at ht2 hbdig
                exact ⟨',' :: b, by simp [ht2, hr], Or.inr ⟨b, ⟨hb, hbdig⟩, rfl⟩⟩
            · rw [show skipCommaDigits (c2 :: t2) = c2 :: t2 from by
                  simp [skipCommaDigits, hc2]] at hstrip2
              have := stripPre_eq_some_iff.mp hstrip2
              exact ⟨[], by simp [this], Or.inl rfl⟩
        obtain ⟨bpart, hr2, hbshape⟩ := hbpart
        obtain ⟨cds, r5, htc⟩ : ∃ cds r5, takeDigits r4 = (cds, r5) := ⟨_, _, rfl⟩
        rw [htc] at h
        dsimp only at h
        by_cases hc : cds = []
        · rw [if_pos hc] at h; cases h
        · rw [if_neg hc] at h
          obtain ⟨hr4, hcdig, hr5head⟩ := takeDigits_eq_spec htc
          dsimp only at hr4 hcdig hr5head
          -- Case split on the optional `,(\d+)` group.
          cases r5 with
          | nil =>
            rw [if_neg (by simp), show stripPre hunkTail ([] : List Char) = none from rfl] at h
            cases h
          | cons c5 t5 =>
            by_cases hc5 : c5 = ','
            · subst hc5
              rw [if_pos (by simp)] at h
              simp only [List.tail_cons] at h
              obtain ⟨dd, r6, htd2⟩ : ∃ dd r6, takeDigits t5 = (dd, r6) := ⟨_, _, rfl⟩
              rw [htd2] at h
              dsimp only at h
              by_cases hdd : dd = []
              · rw [if_pos hdd] at h; cases h
              · rw [if_neg hdd] at h
                cases hstrip3 : stripPre hunkTail r6 with
                | none => rw [hstrip3] at h; cases h
                | some rest =>
                  rw [hstrip3] at h
                  simp only [Option.map_some', Option.some.injEq, Prod.mk.injEq] at h
                  obtain ⟨hcv, hdv⟩ := h
                  obtain ⟨ht5, hdddig, _⟩ := takeDigits_eq_spec htd2
                  dsimp only at ht5 hdddig
                  have hr6 : r6 = hunkTail ++ rest := stripPre_eq_some_iff.mp hstrip3
                  refine ⟨true, a, bpart, cds, ',' :: dd, rest, ?_, ⟨ha, hadig⟩,
                    hbshape, ⟨hc, hcdig⟩, hcv.symm, ?_⟩
                  · have hcs : cs = hunkHeadPre ++ r1 := stripPre_eq_some_iff.mp hstrip
                    simp [hcs, hr1, hr2, hr4, ht5, hr6]
                  · exact if_pos rfl ▸ ⟨dd, ⟨hdd, hdddig⟩, rfl, hdv.symm⟩
            · rw [if_neg (by simp [hc5])] at h
              cases hstrip3 : stripPre hunkTail (c5 :: t5) with
              | none => rw [hstrip3] at h; cases h
              | some rest =>
                rw [hstrip3] at h
                simp only [Option.map_some', Option.some.injEq, Prod.mk.injEq] at h
                obtain ⟨hcv, hdv⟩ := h
                have hr5 : c5 :: t5 = hunkTail ++ rest := stripPre_eq_some_iff.mp hstrip3
                refine ⟨false, a, bpart, cds, [], rest, ?_, ⟨ha, hadig⟩,
                  hbshape, ⟨hc, hcdig⟩, hcv.symm, ?_⟩
                · have hcs : cs = hunkHeadPre ++ r1 := stripPre_eq_some_iff.mp hstrip
                  simp [hcs, hr1, hr2, hr4, hr5]
                · exact if_neg Bool.false_ne_true ▸ ⟨rfl, hdv.symm⟩

/-- Completeness of the matcher: every line of the regex's shape is
matched, with the captured new-side values. -/
lemma matchHunkHeader_complete : ∀ {cs : List Char} {c d : Nat} {hasLen : Bool},
    IsHunkHeaderAt cs c d hasLen → matchHunkHeaderChars cs = some (c, d) := by
  intro cs c d hasLen h
  obtain ⟨a, bpart, cds, dds, rest, hcs, ⟨hane, hadig⟩, hbshape, ⟨hcne, hcdig⟩, hcval, hlen⟩ := h
  subst hcs
  subst hcval
  simp only [List.append_assoc]
  unfold matchHunkHeaderChars
  rw [stripPre_self_append]
  dsimp only
  have hheadB : ∀ x,
      (bpart ++ (hunkMid ++ (cds ++ (dds ++ (hunkTail ++ rest))))).head? = some x →
      x.isDigit = false := by
    rcases hbshape with hb | ⟨b, _, hbeq⟩
    · subst hb
      intro x hx
      simp only [List.nil_append, hunkMid, List.cons_append, List.head?_cons,
        Option.some.injEq] at hx
      subst hx
      decide
    · subst hbeq
      intro x hx
      simp only [List.cons_append, List.head?_cons, Option.some.injEq] at hx
      subst hx
      decide
  rw [takeDigits_of_parts hadig hheadB]
  dsimp only
  rw [if_neg hane]
  have hskip : skipCommaDigits (bpart ++ (hunkMid ++ (cds ++ (dds ++ (hunkTail ++ rest))))) =
      hunkMid ++ (cds ++ (dds ++ (hunkTail ++ rest))) := by
    rcases hbshape with hb | ⟨b, ⟨hbne, hbdig⟩, hbeq⟩
    · subst hb
      simp only [List.nil_append]
      unfold skipCommaDigits
      rw [if_neg (by
        simp only [hunkMid, List.cons_append, List.head?_cons, Option.some.injEq]
        decide)]
    · subst hbeq
      simp only [List.cons_append]
      unfold skipCommaDigits
      rw [if_pos (by simp)]
      simp only [List.tail_cons]
      rw [takeDigits_of_parts hbdig (by
        intro x hx
        simp only [hunkMid, List.cons_append, List.head?_cons, Option.some.injEq] at hx
        subst hx
        decide)]
      dsimp only
      rw [if_neg hbne]
  rw [hskip, stripPre_self_append]
  dsimp only
  cases hasLen with
  | false =>
    rw [if_neg Bool.false_ne_true] at hlen
    obtain ⟨hdds, hd⟩ := hlen
    subst hdds
    subst hd
    simp only [List.nil_append]
    rw [takeDigits_of_parts hcdig (by
      intro x hx
      simp only [hunkTail, List.cons_append, List.head?_cons, Option.some.injEq] at hx
      subst hx
      decide)]
    dsimp only
    rw [if_neg hcne]
    rw [if_neg (by
      simp only [hunkTail, List.cons_append, List.head?_cons, Option.some.injEq]
      decide)]
    rw [stripPre_self_append]
    rfl
  | true =>
    rw [if_pos rfl] at hlen
    obtain ⟨dd, ⟨hddne, hdddig⟩, hddseq, hdval⟩ := hlen
    subst hddseq
    subst hdval
    simp only [List.cons_append]
    rw [takeDigits_of_parts hcdig (by
      intro x hx
      simp only [List.cons_append, List.head?_cons, Option.some.injEq] at hx
      subst hx
      decide)]
    dsimp only
    rw [if_neg hcne]
    rw [if_pos (by simp)]
    simp only [List.tail_cons]
    rw [takeDigits_of_parts hdddig (by
      intro x hx
      simp only [hunkTail, List.cons_append, List.head?_cons, Option.some.injEq] at hx
      subst hx
      decide)]
    dsimp only
    rw [if_neg hddne]
    rw [stripPre_self_append]
    rfl

/-- **C4** — For every pair of differing artifacts, the FilterResult's
`lineRange` is exactly `parseLineRange` of the artifact diff; the matcher
underlying `parseLineRange` accepts precisely the lines of the shape
`^@@ -\d+(?:,\d+)? \+(\d+)(?:,(\d+))? @@`, capturing the new-side start
`c` and length `d` (with `d = 1` when the `,length` group is absent); and
`parseLineRange` is the first matching line's `(start, end)` with
`end = start + length - 1`, `none` when no line matches. -/
theorem claim_C4 :
    (∀ (diffFn : String → String → String) (l r : String), l ≠ r →
      ∃ fr, createFilterResult diffFn l r true = some fr ∧
        fr.lineRange = parseLineRange (diffFn l r))
    ∧ (∀ (cs : List Char) (c d : Nat),
        matchHunkHeaderChars cs = some (c, d) ↔ ∃ hasLen, IsHunkHeaderAt cs c d hasLen)
    ∧ (∀ diffText : String,
        parseLineRange diffText =
          ((splitOnNl diffText.toList).findSome? matchHunkHeaderChars).map
            (fun p => { start := p.1, stop := (p.1 : Int) + p.2 - 1 })) := by
  refine ⟨?_, ?_, ?_⟩
  · intro diffFn l r hlr
    refine ⟨{ diffText := diffFn l r, leftArtifact := l, rightArtifact := r,
              lineRange := parseLineRange (diffFn l r), context := none }, ?_, rfl⟩
    unfold createFilterResult
    rw [if_neg hlr]
    rfl
  · intro cs c d
    exact ⟨matchHunkHeader_sound, fun ⟨_, hh⟩ => matchHunkHeader_complete hh⟩
  · intro diffText
    rfl

/-- Witness for C4: a concrete diff whose first hunk header is
`@@ -1,2 +3,4 @@` yields `lineRange = {start := 3, end := 6}`, and a
header without a length yields `{start := 7, end := 7}`. -/
theorem claim_C4_witness :
    (∃ fr, createFilterResult (fun _ _ => "--- a\n+++ b\n@@ -1,2 +3,4 @@\n ctx") "a" "b" true
        = some fr ∧
      fr.lineRange = parseLineRange "--- a\n+++ b\n@@ -1,2 +3,4 @@\n ctx")
    ∧ parseLineRange "--- a\n+++ b\n@@ -1,2 +3,4 @@\n ctx" = some { start := 3, stop := 6 }
    ∧ parseLineRange "@@ -5 +7 @@" = some { start := 7, stop := 7 }
    ∧ parseLineRange "no header here" = none :=
  ⟨claim_C4.1 (fun _ _ => "--- a\n+++ b\n@@ -1,2 +3,4 @@\n ctx") "a" "b" (by decide),
   by decide, by decide, by decide⟩

/-! ### Claim C7 — reference resolution error modes -/

/-- `parseUseReference` only ever fails with the invalid-format message. -/
lemma parseUseReference_error : ∀ {u e}, parseUseReference u = .error e → e = invalidRefMsg u := by
  intro u e h
  unfold parseUseReference at h
  cases h1 : stripPre "#defined/".toList u.toList with
  | none =>
    rw [h1] at h
    cases h
    rfl
  | some afterHead =>
    rw [h1] at h
    dsimp only at h
    cases h2 : refKindAndRest afterHead with
    | none =>
      rw [h2] at h
      cases h
      rfl
    | some kn =>
      obtain ⟨kind, nameChars⟩ := kn
      rw [h2] at h
      dsimp only at h
      by_cases hname : nameChars ≠ [] ∧ nameChars.all jsDotChar
      · rw [if_pos hname] at h
        cases h
      · rw [if_neg hname] at h
        cases h
        rfl

/-- The classification of one resolver's outcome. -/
lemma resolveSignal_classified (ref : Ref Signal) (defined : Option DefinedBlock) :
    (∃ s, resolveSignal ref defined = .ok s)
    ∨ (∃ u, resolveSignal ref defined = .error (invalidRefMsg u))
    ∨ (∃ u k, k ≠ RefKind.signals ∧
        resolveSignal ref defined = .error (kindMismatchMsg "signal" k u))
    ∨ (∃ n, resolveSignal ref defined = .error (notFoundMsg "Signal" n "signals")) := by
  cases ref with
  | inline s => exact Or.inl ⟨s, rfl⟩
  | use u =>
    cases hp : parseUseReference u with
    | error e =>
      refine Or.inr (Or.inl ⟨u, ?_⟩)
      simp only [resolveSignal]
      rw [hp, parseUseReference_error hp]
    | ok kn =>
      obtain ⟨k, n⟩ := kn
      by_cases hk : k = RefKind.signals
      · subst hk
        cases hl : (defined.bind (·.signals)).bind (List.lookup n) with
        | none =>
          refine Or.inr (Or.inr (Or.inr ⟨n, ?_⟩))
          simp only [resolveSignal]
          rw [hp]
          dsimp only
          rw [if_neg (by simp), hl]
        | some v =>
          refine Or.inl ⟨v, ?_⟩
          simp only [resolveSignal]
          rw [hp]
          dsimp only
          rw [if_neg (by simp), hl]
      · refine Or.inr (Or.inr (Or.inl ⟨u, k, hk, ?_⟩))
        simp only [resolveSignal]
        rw [hp]
        dsimp only
        rw [if_pos hk]

/-- The classification for watch references. -/
lemma resolveWatch_classified (ref : Ref WatchConfig) (defined : Option DefinedBlock) :
    (∃ w, resolveWatch ref defined = .ok w)
    ∨ (∃ u, resolveWatch ref defined = .error (invalidRefMsg u))
    ∨ (∃ u k, k ≠ RefKind.watches ∧
        resolveWatch ref defined = .error (kindMismatchMsg "watch" k u))
    ∨ (∃ n, resolveWatch ref defined = .error (notFoundMsg "Watch" n "watches")) := by
  cases ref with
  | inline w => exact Or.inl ⟨w, rfl⟩
  | use u =>
    cases hp : parseUseReference u with
    | error e =>
      refine Or.inr (Or.inl ⟨u, ?_⟩)
      simp only [resolveWatch]
      rw [hp, parseUseReference_error hp]
    | ok kn =>
      obtain ⟨k, n⟩ := kn
      by_cases hk : k = RefKind.watches
      · subst hk
        cases hl : (defined.bind (·.watches)).bind (List.lookup n) with
        | none =>
          refine Or.inr (Or.inr (Or.inr ⟨n, ?_⟩))
          simp only [resolveWatch]
          rw [hp]
          dsimp only
          rw [if_neg (by simp), hl]
        | some v =>
          refine Or.inl ⟨v, ?_⟩
          simp only [resolveWatch]
          rw [hp]
          dsimp only
          rw [if_neg (by simp), hl]
      · refine Or.inr (Or.inr (Or.inl ⟨u, k, hk, ?_⟩))
        simp only [resolveWatch]
        rw [hp]
        dsimp only
        rw [if_pos hk]

/-- The classification for report references. -/
lemma resolveReport_classified (ref : Ref ReportConfig) (defined : Option DefinedBlock) :
    (∃ r, resolveReport ref defined = .ok r)
    ∨ (∃ u, resolveReport ref defined = .error (invalidRefMsg u))
    ∨ (∃ u k, k ≠ RefKind.reports ∧
        resolveReport ref defined = .error (kindMismatchMsg "report" k u))
    ∨ (∃ n, resolveReport ref defined = .error (notFoundMsg "Report" n "reports")) := by
  cases ref with
  | inline r => exact Or.inl ⟨r, rfl⟩
  | use u =>
    cases hp : parseUseReference u with
    | error e =>
      refine Or.inr (Or.inl ⟨u, ?_⟩)
      simp only [resolveReport]
      rw [hp, parseUseReference_error hp]
    | ok kn =>
      obtain ⟨k, n⟩ := kn
      by_cases hk : k = RefKind.reports
      · subst hk
        cases hl : (defined.bind (·.reports)).bind (List.lookup n) with
        | none =>
          refine Or.inr (Or.inr (Or.inr ⟨n, ?_⟩))
          simp only [resolveReport]
          rw [hp]
          dsimp only
          rw [if_neg (by simp), hl]
        | some v =>
          refine Or.inl ⟨v, ?_⟩
          simp only [resolveReport]
          rw [hp]
          dsimp only
          rw [if_neg (by simp), hl]
      · refine Or.inr (Or.inr (Or.inl ⟨u, k, hk, ?_⟩))
        simp only [resolveReport]
        rw [hp]
        dsimp only
        rw [if_pos hk]

/-- **C7 (amended)** — Every reference resolution either succeeds or
raises one of the three mode-distinguishing errors: bad format
(`Invalid reference format: ...`), kind mismatch
(`Expected a <kind> reference, got "<other>" in "<use>"`), or unresolved
name (`<Kind> "<name>" not found in defined.<kind>`).  The runner
propagates such an error for the failing signal as-is — the message
carries the reference string and name but no signal or concern
identifier is attached. -/
theorem claim_C7 :
    (∀ (ref : Ref Signal) (defined : Option DefinedBlock),
      (∃ s, resolveSignal ref defined = .ok s)
      ∨ (∃ u, resolveSignal ref defined = .error (invalidRefMsg u))
      ∨ (∃ u k, k ≠ RefKind.signals ∧
          resolveSignal ref defined = .error (kindMismatchMsg "signal" k u))
      ∨ (∃ n, resolveSignal ref defined = .error (notFoundMsg "Signal" n "signals")))
    ∧ (∀ (ref : Ref WatchConfig) (defined : Option DefinedBlock),
      (∃ w, resolveWatch ref defined = .ok w)
      ∨ (∃ u, resolveWatch ref defined = .error (invalidRefMsg u))
      ∨ (∃ u k, k ≠ RefKind.watches ∧
          resolveWatch ref defined = .error (kindMismatchMsg "watch" k u))
      ∨ (∃ n, resolveWatch ref defined = .error (notFoundMsg "Watch" n "watches")))
    ∧ (∀ (ref : Ref ReportConfig) (defined : Option DefinedBlock),
      (∃ r, resolveReport ref defined = .ok r)
      ∨ (∃ u, resolveReport ref defined = .error (invalidRefMsg u))
      ∨ (∃ u k, k ≠ RefKind.reports ∧
          resolveReport ref defined = .error (kindMismatchMsg "report" k u))
      ∨ (∃ n, resolveReport ref defined = .error (notFoundMsg "Report" n "reports")))
    ∧ (∀ (env : RunnerEnv) (concernId : String) (defined : Option DefinedBlock)
          (file : File) (signalRef : Ref Signal) (e : String),
        resolveSignal signalRef defined = .error e →
        processSignal env concernId defined file signalRef = .error e)
    ∧ (∀ (env : RunnerEnv) (concernId : String) (defined : Option DefinedBlock)
          (file : File) (signalRef : Ref Signal) (signal : Signal) (e : String),
        resolveSignal signalRef defined = .ok signal →
        resolveWatch signal.watch defined = .error e →
        processSignal env concernId defined file signalRef = .error e) := by
  refine ⟨resolveSignal_classified, resolveWatch_classified, resolveReport_classified, ?_, ?_⟩
  · intro env concernId defined file signalRef e h
    simp [processSignal, h]
  · intro env concernId defined file signalRef signal e hs hw
    simp [processSignal, hs, hw]

/-- Witness for C7: a malformed reference propagates the invalid-format
error out of `processSignal` verbatim. -/
theorem claim_C7_witness :
    processSignal envAllMatch "payments" none fileFix (.use "bad-ref")
      = .error (invalidRefMsg "bad-ref") :=
  claim_C7.2.2.2.1 envAllMatch "payments" none fileFix (.use "bad-ref")
    (invalidRefMsg "bad-ref") (by decide)

/-- Counterexample for C7 as stated: in a configuration whose concern
`payments` holds a signal with a dangling watch reference, the run fails
with the unresolved-name message, which is raised without the signal's
concern id (`payments` is not a substring of the message) — no signal id
is attached to the error. -/
theorem claim_C7_counterexample :
    processFiles envAllMatch [fileFix] cfgDanglingOnly
      = .error "Watch \"missing\" not found in defined.watches"
    ∧ hasSub "payments".toList
        "Watch \"missing\" not found in defined.watches".toList = false := by
  constructor
  · decide
  · decide

/-! ### Claims C1 and C10 — runner traversal lemmas -/

lemma runSignals_ok (env : RunnerEnv) (concernId : String) (defined : Option DefinedBlock)
    (file : File) : ∀ (sigs : List (Ref Signal)) (rs : List ReportOutput),
    runSignals env concernId defined file sigs = .ok rs →
    ∀ s ∈ sigs, ∃ out, processSignal env concernId defined file s = .ok out := by
  intro sigs
  induction sigs with
  | nil => intro rs _ s hs; cases hs
  | cons s0 rest ih =>
    intro rs h s hs
    unfold runSignals at h
    cases h0 : processSignal env concernId defined file s0 with
    | error e => rw [h0] at h; cases h
    | ok rs0 =>
      rw [h0] at h
      cases hrest : runSignals env concernId defined file rest with
      | error e => rw [hrest] at h; cases h
      | ok more =>
        rcases List.mem_cons.mp hs with hseq | hs2
        · exact hseq ▸ ⟨rs0, h0⟩
        · exact ih more hrest s hs2

lemma runConcerns_ok (env : RunnerEnv) (defined : Option DefinedBlock) (file : File) :
    ∀ (cs : List (String × Concern)) (rs : List ReportOutput),
    runConcerns env defined file cs = .ok rs →
    ∀ c ∈ cs, ∃ rs1, runSignals env c.1 defined file c.2.signals = .ok rs1 := by
  intro cs
  induction cs with
  | nil => intro rs _ c hc; cases hc
  | cons c0 rest ih =>
    intro rs h c hc
    unfold runConcerns at h
    cases h0 : runSignals env c0.1 defined file c0.2.signals with
    | error e => rw [h0] at h; cases h
    | ok rs0 =>
      rw [h0] at h
      cases hrest : runConcerns env defined file rest with
      | error e => rw [hrest] at h; cases h
      | ok more =>
        rcases List.mem_cons.mp hc with hceq | hc2
        · exact hceq ▸ ⟨rs0, h0⟩
        · exact ih more hrest c hc2

lemma runFiles_ok (env : RunnerEnv) (config : DistillConfig) :
    ∀ (files : List File) (rs : List ReportOutput),
    runFiles env config files = .ok rs →
    ∀ f ∈ files, ∃ rs1, runConcerns env config.defined f config.concerns = .ok rs1 := by
  intro files
  induction files with
  | nil => intro rs _ f hf; cases hf
  | cons f0 rest ih =>
    intro rs h f hf
    unfold runFiles at h
    cases h0 : runConcerns env config.defined f0 config.concerns with
    | error e => rw [h0] at h; cases h
    | ok rs0 =>
      rw [h0] at h
      cases hrest : runFiles env config rest with
      | error e => rw [hrest] at h; cases h
      | ok more =>
        rcases List.mem_cons.mp hf with hfeq | hf2
        · exact hfeq ▸ ⟨rs0, h0⟩
        · exact ih more hrest f hf2

/-- **C1 (amended)** — A per-signal runtime failure is not isolated: the
first rejection anywhere in the traversal aborts `processFiles` as a
whole.  Equivalently, whenever `processFiles` returns a result at all,
every traversed (file, signal) pair succeeded; there is no mode in which
a failing signal is recorded while the others still report. -/
theorem claim_C1 (env : RunnerEnv) (files : List File) (config : DistillConfig)
    (rs : List ReportOutput) (h : processFiles env files config = .ok rs) :
    ∀ t ∈ signalTriples files config,
      ∃ out, processSignal env t.2.1 config.defined t.1 t.2.2 = .ok out := by
  intro t ht
  simp only [signalTriples, List.mem_flatMap, List.mem_map] at ht
  obtain ⟨file, hfile, c, hc, sref, hsref, hteq⟩ := ht
  subst hteq
  obtain ⟨rs1, h1⟩ := runFiles_ok env config files rs h file hfile
  obtain ⟨rs2, h2⟩ := runConcerns_ok env config.defined file config.concerns rs1 h1 c hc
  exact runSignals_ok env c.1 config.defined file c.2.signals rs2 h2 sref hsref

/-- Witness for C1: a run that succeeds on a one-signal configuration
certifies that its only (file, signal) pair succeeded. -/
theorem claim_C1_witness :
    ∃ out, processSignal envAllMatch "payments" cfgOneSignal.defined fileFix
      (.inline sigFix) = .ok out :=
  claim_C1 envAllMatch [fileFix] cfgOneSignal
    [{ content := "report", notify := none }] (by decide)
    (fileFix, "payments", .inline sigFix) (by decide)

/-- Counterexample for C1 as stated: concern `payments` declares a
failing signal (dangling watch reference) and then a healthy signal; the
healthy signal alone produces a report, yet the whole run rejects with
the first signal's error, returning no result and no reports. -/
theorem claim_C1_counterexample :
    processFiles envAllMatch [fileFix] cfgFailFirst
      = .error "Watch \"missing\" not found in defined.watches"
    ∧ processSignal envAllMatch "payments" none fileFix (.inline sigFix)
      = .ok [{ content := "report", notify := none }] := by
  exact ⟨by decide, by decide⟩

lemma traverseTriples_append (env : RunnerEnv) (defined : Option DefinedBlock)
    (xs ys : List (File × String × Ref Signal)) :
    traverseTriples env defined (xs ++ ys) =
      match traverseTriples env defined xs with
      | .error e => .error e
      | .ok a =>
        match traverseTriples env defined ys with
        | .error e => .error e
        | .ok b => .ok (a ++ b) := by
  induction xs with
  | nil =>
    simp only [List.nil_append, traverseTriples]
    cases traverseTriples env defined ys <;> simp
  | cons x xs ih =>
    simp only [List.cons_append, traverseTriples]
    cases processSignal env x.2.1 defined x.1 x.2.2 with
    | error e => rfl
    | ok rs =>
      dsimp only
      simp only [List.append_eq]
      rw [ih]
      cases traverseTriples env defined xs with
      | error e => rfl
      | ok a =>
        cases traverseTriples env defined ys with
        | error e => rfl
        | ok b => simp

lemma runSignals_eq_traverse (env : RunnerEnv) (concernId : String)
    (defined : Option DefinedBlock) (file : File) :
    ∀ sigs : List (Ref Signal),
    runSignals env concernId defined file sigs =
      traverseTriples env defined (sigs.map fun s => (file, concernId, s)) := by
  intro sigs
  induction sigs with
  | nil => rfl
  | cons s rest ih =>
    simp only [List.map_cons, runSignals, traverseTriples]
    rw [ih]

lemma runConcerns_eq_traverse (env : RunnerEnv) (defined : Option DefinedBlock)
    (file : File) : ∀ cs : List (String × Concern),
    runConcerns env defined file cs =
      traverseTriples env defined
        (cs.flatMap fun c => c.2.signals.map fun s => (file, c.1, s)) := by
  intro cs
  induction cs with
  | nil => rfl
  | cons c rest ih =>
    simp only [List.flatMap_cons]
    rw [traverseTriples_append]
    unfold runConcerns
    rw [runSignals_eq_traverse, ih]

lemma processFiles_eq_traverse (env : RunnerEnv) (files : List File)
    (config : DistillConfig) :
    processFiles env files config =
      traverseTriples env config.defined (signalTriples files config) := by
  unfold processFiles
  induction files with
  | nil => rfl
  | cons f rest ih =>
    unfold signalTriples
    simp only [List.flatMap_cons]
    rw [traverseTriples_append]
    unfold runFiles
    rw [runConcerns_eq_traverse, ih]
    rfl

lemma processSignal_length (env : RunnerEnv) (concernId : String)
    (defined : Option DefinedBlock) (file : File) (signalRef : Ref Signal)
    (rs : List ReportOutput) (h : processSignal env concernId defined file signalRef = .ok rs) :
    rs.length ≤ 1 := by
  unfold processSignal at h
  dsimp only at h
  cases hs : resolveSignal signalRef defined with
  | error e => rw [hs] at h; cases h
  | ok signal =>
    rw [hs] at h
    dsimp only at h
    cases hw : resolveWatch signal.watch defined with
    | error e => rw [hw] at h; cases h
    | ok watch =>
      rw [hw] at h
      dsimp only at h
      by_cases hm : matchesInclude env.minimatch (effectivePath file) watch.includePat = true
      · rw [if_pos hm] at h
        cases hv : getFileVersions env.contentProvider env.refs file with
        | error e => rw [hv] at h; cases h
        | ok versions =>
          rw [hv] at h
          dsimp only at h
          cases ha : env.applyWatch watch versions (effectivePath file) with
          | error e => rw [ha] at h; cases h
          | ok wres =>
            rw [ha] at h
            cases wres with
            | none => cases h; simp
            | some fr =>
              dsimp only at h
              cases hr : resolveReport signal.report defined with
              | error e => rw [hr] at h; cases h
              | ok report =>
                rw [hr] at h
                dsimp only at h
                cases h
                simp
      · rw [if_neg hm] at h
        cases h
        simp

lemma traverseTriples_length (env : RunnerEnv) (defined : Option DefinedBlock) :
    ∀ (ts : List (File × String × Ref Signal)) (rs : List ReportOutput),
    traverseTriples env defined ts = .ok rs → rs.length ≤ ts.length := by
  intro ts
  induction ts with
  | nil =>
    intro rs h
    cases h
    simp
  | cons t rest ih =>
    intro rs h
    unfold traverseTriples at h
    cases h0 : processSignal env t.2.1 defined t.1 t.2.2 with
    | error e => rw [h0] at h; cases h
    | ok rs0 =>
      rw [h0] at h
      cases hrest : traverseTriples env defined rest with
      | error e => rw [hrest] at h; cases h
      | ok more =>
        rw [hrest] at h
        cases h
        have h1 := processSignal_length env t.2.1 defined t.1 t.2.2 rs0 h0
        have h2 := ih more hrest
        simp only [List.length_append, List.length_cons]
        omega

lemma signalTriples_length (files : List File) (config : DistillConfig) :
    (signalTriples files config).length = files.length * totalSignals config := by
  have hper : ∀ f : File,
      (config.concerns.flatMap fun c => c.2.signals.map fun s => (f, c.1, s)).length
        = totalSignals config := by
    intro f
    unfold totalSignals
    induction config.concerns with
    | nil => rfl
    | cons c rest ih =>
      simp only [List.flatMap_cons, List.length_append, List.length_map, List.map_cons,
        List.sum_cons, ih]
  unfold signalTriples
  induction files with
  | nil => simp
  | cons f rest ih =>
    simp only [List.flatMap_cons, List.length_append, hper f, ih, List.length_cons]
    ring

/-- **C10** — `processSignal` returns an empty or singleton report list;
`processFiles` equals the in-order traversal of the file × concern ×
signal triples (so reports appear in that order, each pair contributing
its own block in sequence); hence a successful run emits at most
(number of files) × (total number of signals) reports. -/
theorem claim_C10 :
    (∀ (env : RunnerEnv) (concernId : String) (defined : Option DefinedBlock)
        (file : File) (signalRef : Ref Signal) (rs : List ReportOutput),
      processSignal env concernId defined file signalRef = .ok rs → rs.length ≤ 1)
    ∧ (∀ (env : RunnerEnv) (files : List File) (config : DistillConfig),
      processFiles env files config =
        traverseTriples env config.defined (signalTriples files config))
    ∧ (∀ (env : RunnerEnv) (files : List File) (config : DistillConfig)
        (rs : List ReportOutput),
      processFiles env files config = .ok rs →
        rs.length ≤ files.length * totalSignals config) := by
  refine ⟨processSignal_length, processFiles_eq_traverse, ?_⟩
  intro env files config rs h
  rw [processFiles_eq_traverse] at h
  calc rs.length ≤ (signalTriples files config).length :=
        traverseTriples_length env config.defined (signalTriples files config) rs h
    _ = files.length * totalSignals config := signalTriples_length files config

/-- Witness for C10: the one-file, one-signal run emits exactly one
report, within the bound 1 × 1. -/
theorem claim_C10_witness :
    ([{ content := "report", notify := none }] : List ReportOutput).length
      ≤ [fileFix].length * totalSignals cfgOneSignal :=
  claim_C10.2.2 envAllMatch [fileFix] cfgOneSignal
    [{ content := "report", notify := none }] (by decide)

/-! ### Claim C8 — context merge semantics -/

/-- The serialization-keyed deduplicating fold underlying
`mergeContexts`: starting from a pairwise-distinct accumulator it stays
pairwise distinct, introduces no foreign entries, and keeps a
representative (of equal serialization) for everything it sees. -/
lemma mergeFold_spec :
    ∀ (xs acc : List ContextEntry),
      List.Pairwise (fun a b => serializeEntry a ≠ serializeEntry b) acc →
      List.Pairwise (fun a b => serializeEntry a ≠ serializeEntry b)
          (xs.foldl (fun acc c =>
            if acc.any (fun e => serializeEntry e = serializeEntry c) then acc
            else acc ++ [c]) acc)
      ∧ (∀ e ∈ xs.foldl (fun acc c =>
            if acc.any (fun e => serializeEntry e = serializeEntry c) then acc
            else acc ++ [c]) acc, e ∈ acc ++ xs)
      ∧ (∀ e ∈ acc ++ xs, ∃ e2 ∈ xs.foldl (fun acc c =>
            if acc.any (fun e => serializeEntry e = serializeEntry c) then acc
            else acc ++ [c]) acc, serializeEntry e2 = serializeEntry e) := by
  intro xs
  induction xs with
  | nil =>
    intro acc hacc
    refine ⟨hacc, ?_, ?_⟩
    · intro e he
      simpa using he
    · intro e he
      exact ⟨e, by simpa using he, rfl⟩
  | cons x xs ih =>
    intro acc hacc
    simp only [List.foldl_cons]
    by_cases hany : (acc.any fun e => serializeEntry e = serializeEntry x) = true
    · rw [if_pos hany]
      obtain ⟨hp, hmem, hrep⟩ := ih acc hacc
      refine ⟨hp, ?_, ?_⟩
      · intro e he
        have h2 := hmem e he
        simp only [List.mem_append, List.mem_cons] at h2 ⊢
        tauto
      · intro e he
        simp only [List.mem_append, List.mem_cons] at he
        rcases he with he | he | he
        · exact hrep e (List.mem_append.mpr (Or.inl he))
        · subst he
          obtain ⟨e0, he0, hser⟩ := List.any_eq_true.mp hany
          have hser2 : serializeEntry e0 = serializeEntry e := of_decide_eq_true hser
          obtain ⟨e2, he2, h2⟩ := hrep e0 (List.mem_append.mpr (Or.inl he0))
          exact ⟨e2, he2, h2.trans hser2⟩
        · exact hrep e (List.mem_append.mpr (Or.inr he))
    · rw [if_neg hany]
      have hall : ∀ e ∈ acc, serializeEntry e ≠ serializeEntry x := by
        intro e he hcontra
        exact hany (List.any_eq_true.mpr ⟨e, he, decide_eq_true hcontra⟩)
      have hacc2 : List.Pairwise (fun a b => serializeEntry a ≠ serializeEntry b)
          (acc ++ [x]) := by
        rw [List.pairwise_append]
        refine ⟨hacc, List.pairwise_singleton _ _, ?_⟩
        intro a ha b hb
        simp only [List.mem_singleton] at hb
        subst hb
        exact hall a ha
      obtain ⟨hp, hmem, hrep⟩ := ih (acc ++ [x]) hacc2
      refine ⟨hp, ?_, ?_⟩
      · intro e he
        have h2 := hmem e he
        simp only [List.mem_append, List.mem_cons, List.mem_singleton] at h2 ⊢
        tauto
      · intro e he
        simp only [List.mem_append, List.mem_cons] at he
        rcases he with he | he | he
        · exact hrep e (by
            simp only [List.mem_append, List.mem_singleton]
            exact Or.inl (Or.inl he))
        · subst he
          exact hrep e (by simp)
        · exact hrep e (by
            simp only [List.mem_append, List.mem_singleton]
            exact Or.inr he)

/-- **C8 (amended)** — The merged context is the left-then-right sequence
deduplicated by equality of JSON serialization (which preserves key
order), not by structural map equality: no two merged entries share a
serialization, every merged entry comes from one of the two sides, every
side entry has a representative of equal serialization, and
`processFilter` attaches exactly this merge (omitting it when empty).
Entries equal as key/value maps but with different key order serialize
differently and are both kept (see the counterexample). -/
theorem claim_C8 :
    (∀ L R : List ContextEntry,
      List.Pairwise (fun a b => serializeEntry a ≠ serializeEntry b) (mergeContexts L R)
      ∧ (∀ e ∈ mergeContexts L R, e ∈ L ++ R)
      ∧ (∀ e ∈ L ++ R, ∃ e2 ∈ mergeContexts L R, serializeEntry e2 = serializeEntry e))
    ∧ (∀ (diffFn : String → String → String) (versions : FileVersions)
          (extractor : Option String → Except String ExtractedContent)
          (left right : ExtractedContent),
        extractor versions.oldContent = .ok left →
        extractor versions.newContent = .ok right →
        ¬(versions.oldContent = none ∧ versions.newContent = none) →
        left.text ≠ right.text →
        ∃ fr, processFilter diffFn versions extractor = .ok (some fr) ∧
          fr.context =
            (if (mergeContexts left.context right.context).length > 0
             then some (mergeContexts left.context right.context) else none)) := by
  constructor
  · intro L R
    unfold mergeContexts
    exact mergeFold_spec (L ++ R) [] List.Pairwise.nil
  · intro diffFn versions extractor left right hl hr hnn htext
    unfold processFilter
    rw [if_neg hnn, hl, hr]
    simp only [createFilterResult, if_neg htext]
    by_cases hm : (mergeContexts left.context right.context).length > 0
    · rw [if_pos hm]
      exact ⟨_, rfl, by dsimp only; rw [if_pos hm]⟩
    · rw [if_neg hm]
      exact ⟨_, rfl, by dsimp only; rw [if_neg hm]⟩

/-- Witness for C8: an entry produced identically by both sides appears
once in the attached context. -/
theorem claim_C8_witness :
    ∃ fr, processFilter (fun _ _ => "")
        { newContent := some "n", oldContent := some "o" }
        (fun c => .ok (if c = some "o"
          then { context := [[[("k", "1")]]], text := "A" }
          else { context := [[[("k", "1")]]], text := "B" }))
        = .ok (some fr) ∧
      fr.context =
        (if (mergeContexts [[[("k", "1")]]] [[[("k", "1")]]]).length > 0
         then some (mergeContexts [[[("k", "1")]]] [[[("k", "1")]]]) else none) :=
  claim_C8.2 (fun _ _ => "") { newContent := some "n", oldContent := some "o" }
    (fun c => .ok (if c = some "o"
      then { context := [[[("k", "1")]]], text := "A" }
      else { context := [[[("k", "1")]]], text := "B" }))
    { context := [[[("k", "1")]]], text := "A" }
    { context := [[[("k", "1")]]], text := "B" }
    (by decide) (by decide) (by decide) (by decide)

/-- Counterexample for C8 as stated: the two sides produce context
entries that are equal as key/value maps (the same two pairs, in
different key order), yet both appear in the merged context — the
deduplication is by serialized form, not by structural map equality. -/
theorem claim_C8_counterexample :
    (processFilter (fun _ _ => "")
        { newContent := some "new", oldContent := some "old" }
        (fun c => .ok (if c = some "old"
          then { context := [[[("a", "1"), ("b", "2")]]], text := "L" }
          else { context := [[[("b", "2"), ("a", "1")]]], text := "R" }))
      = .ok (some
          { diffText := "", leftArtifact := "L", rightArtifact := "R",
            lineRange := none,
            context := some [[[("a", "1"), ("b", "2")]], [[("b", "2"), ("a", "1")]]] }))
    ∧ List.Perm [("a", "1"), ("b", "2")] [("b", "2"), ("a", "1")]
    ∧ ([[("a", "1"), ("b", "2")]] : ContextEntry) ≠ [[("b", "2"), ("a", "1")]] := by
  refine ⟨by decide, by decide, by decide⟩

/-! ### Claim C6 — tsq content captures, deduplication and context -/

/-- No capture strictly contains itself. -/
lemma strictContainsB_self (c : TSCapture) : strictContainsB c c = false := by
  simp [strictContainsB]

/-- Membership in the maximality filter is exactly maximality: the
`other !== c` guard changes nothing because strict containment is
irreflexive. -/
lemma tsqContent_mem : ∀ (m : List TSCapture) (c : TSCapture), c ∈ m →
    (c ∈ tsqContentCaptures none m ↔ TsqMaximal m c) := by
  intro m c hc
  unfold tsqContentCaptures TsqMaximal
  rw [List.mem_filter]
  constructor
  · rintro ⟨_, hp⟩ ⟨o, ho, hso⟩
    have : m.any (fun other => decide (other ≠ c) && strictContainsB other c) = true := by
      refine List.any_eq_true.mpr ⟨o, ho, ?_⟩
      have hne : o ≠ c := by
        intro heq
        rw [heq, strictContainsB_self c] at hso
        cases hso
      simp [hne, hso]
    simp only [this, Bool.not_true] at hp
    cases hp
  · intro hmax
    refine ⟨hc, ?_⟩
    have : m.any (fun other => decide (other ≠ c) && strictContainsB other c) = false := by
      rw [← Bool.not_eq_true, List.any_eq_true]
      rintro ⟨o, ho, hp⟩
      rw [Bool.and_eq_true, decide_eq_true_eq] at hp
      exact hmax ⟨o, ho, hp.2⟩
    rw [this]
    rfl

/-- Deduplication only consults membership of the seen set. -/
lemma dedupByIdAux_congr : ∀ (cs : List TSCapture) (seen1 seen2 : List Nat),
    (∀ x, x ∈ seen1 ↔ x ∈ seen2) → dedupByIdAux seen1 cs = dedupByIdAux seen2 cs := by
  intro cs
  induction cs with
  | nil => intro _ _ _; rfl
  | cons c cs ih =>
    intro seen1 seen2 hiff
    unfold dedupByIdAux
    by_cases hmem : c.node.id ∈ seen1
    · rw [if_pos hmem, if_pos ((hiff _).mp hmem)]
      exact ih seen1 seen2 hiff
    · rw [if_neg hmem, if_neg (fun h => hmem ((hiff _).mpr h))]
      refine congrArg (c :: ·) (ih _ _ ?_)
      intro x
      simp only [List.mem_cons]
      exact or_congr Iff.rfl (hiff x)

/-- Unfolding equations for `dedupByIdAux`. -/
lemma dedupByIdAux_cons_mem {seen : List Nat} {x : TSCapture} {cs : List TSCapture}
    (h : x.node.id ∈ seen) : dedupByIdAux seen (x :: cs) = dedupByIdAux seen cs := by
  conv_lhs => unfold dedupByIdAux
  rw [if_pos h]

lemma dedupByIdAux_cons_not_mem {seen : List Nat} {x : TSCapture} {cs : List TSCapture}
    (h : x.node.id ∉ seen) :
    dedupByIdAux seen (x :: cs) = x :: dedupByIdAux (x.node.id :: seen) cs := by
  conv_lhs => unfold dedupByIdAux
  rw [if_neg h]

/-- Deduplication over an append: the second part is deduplicated against
the seen set extended with the ids kept from the first part. -/
lemma dedupByIdAux_append : ∀ (xs ys : List TSCapture) (seen : List Nat),
    dedupByIdAux seen (xs ++ ys) =
      dedupByIdAux seen xs ++
        dedupByIdAux (seen ++ (dedupByIdAux seen xs).map (fun c => c.node.id)) ys := by
  intro xs
  induction xs with
  | nil =>
    intro ys seen
    rw [List.nil_append, show dedupByIdAux seen ([] : List TSCapture) = [] from rfl]
    rw [List.map_nil, List.append_nil, List.nil_append]
  | cons x xs ih =>
    intro ys seen
    rw [List.cons_append]
    by_cases hmem : x.node.id ∈ seen
    · simp only [dedupByIdAux_cons_mem hmem]
      exact ih ys seen
    · simp only [dedupByIdAux_cons_not_mem hmem]
      rw [ih ys (x.node.id :: seen)]
      simp only [List.cons_append, List.map_cons]
      exact congrArg (fun t => x :: (dedupByIdAux (x.node.id :: seen) xs ++ t))
        (dedupByIdAux_congr ys _ _ (by
          intro z
          simp only [List.mem_append, List.mem_cons]
          tauto))

/-- One step of the content-accumulation fold. -/
lemma tsqAddContent_cons (acc : TsqAcc) (c : TSCapture) (cc : List TSCapture) :
    tsqAddContent acc (c :: cc) =
      tsqAddContent
        (if c.node.id ∈ acc.seen then acc
         else { acc with
                seen := acc.seen ++ [c.node.id],
                nodeTexts := acc.nodeTexts ++ [c.node.text] }) cc := by
  unfold tsqAddContent
  rw [List.foldl_cons]

/-- Effect of step 2 of the loop on the accumulator. -/
lemma tsqAddContent_spec : ∀ (cc : List TSCapture) (acc : TsqAcc),
    (tsqAddContent acc cc).seen
        = acc.seen ++ (dedupByIdAux acc.seen cc).map (fun c => c.node.id)
    ∧ (tsqAddContent acc cc).nodeTexts
        = acc.nodeTexts ++ (dedupByIdAux acc.seen cc).map (fun c => c.node.text)
    ∧ (tsqAddContent acc cc).contexts = acc.contexts := by
  intro cc
  induction cc with
  | nil =>
    intro acc
    refine ⟨?_, ?_, rfl⟩ <;>
      rw [show dedupByIdAux acc.seen ([] : List TSCapture) = [] from rfl] <;> simp [tsqAddContent]
  | cons c cc ih =>
    intro acc
    rw [tsqAddContent_cons]
    by_cases hmem : c.node.id ∈ acc.seen
    · rw [if_pos hmem, dedupByIdAux_cons_mem hmem]
      exact ih acc
    · rw [if_neg hmem, dedupByIdAux_cons_not_mem hmem]
      obtain ⟨h1, h2, h3⟩ := ih
        { acc with
          seen := acc.seen ++ [c.node.id],
          nodeTexts := acc.nodeTexts ++ [c.node.text] }
      refine ⟨?_, ?_, h3⟩
      · rw [h1]
        dsimp only
        rw [dedupByIdAux_congr cc (acc.seen ++ [c.node.id]) (c.node.id :: acc.seen) (by
          intro z
          simp only [List.mem_append, List.mem_cons, List.mem_singleton]
          tauto)]
        simp
      · rw [h2]
        dsimp only
        rw [dedupByIdAux_congr cc (acc.seen ++ [c.node.id]) (c.node.id :: acc.seen) (by
          intro z
          simp only [List.mem_append, List.mem_cons, List.mem_singleton]
          tauto)]
        simp

/-- Effect of one whole match iteration on the accumulator. -/
lemma tsqProcessMatch_spec (captureCfg : Option String) (acc : TsqAcc)
    (m : List TSCapture) :
    (tsqProcessMatch captureCfg acc m).seen
        = acc.seen ++ (dedupByIdAux acc.seen (tsqContentCaptures captureCfg m)).map
            (fun c => c.node.id)
    ∧ (tsqProcessMatch captureCfg acc m).nodeTexts
        = acc.nodeTexts ++ (dedupByIdAux acc.seen (tsqContentCaptures captureCfg m)).map
            (fun c => c.node.text)
    ∧ (tsqProcessMatch captureCfg acc m).contexts
        = acc.contexts ++ (tsqMatchEntry captureCfg m).toList := by
  obtain ⟨h1, h2, h3⟩ := tsqAddContent_spec (tsqContentCaptures captureCfg m) acc
  unfold tsqProcessMatch tsqMatchEntry
  dsimp only
  by_cases hctx : tsqMatchContext (tsqContentCaptures captureCfg m) m = []
  · rw [if_pos hctx, if_pos hctx]
    exact ⟨h1, h2, by rw [h3]; simp⟩
  · rw [if_neg hctx, if_neg hctx]
    exact ⟨h1, h2, by dsimp only; rw [h3]; simp⟩

/-- Effect of the whole loop: the node texts are the per-match content
captures, flattened in order and deduplicated by node id against
everything seen so far; the contexts are the per-match entries with the
empty ones skipped. -/
lemma tsqLoop_spec (captureCfg : Option String) : ∀ (ms : List (List TSCapture)) (acc : TsqAcc),
    (ms.foldl (tsqProcessMatch captureCfg) acc).seen
        = acc.seen ++ (dedupByIdAux acc.seen
            (ms.flatMap (tsqContentCaptures captureCfg))).map (fun c => c.node.id)
    ∧ (ms.foldl (tsqProcessMatch captureCfg) acc).nodeTexts
        = acc.nodeTexts ++ (dedupByIdAux acc.seen
            (ms.flatMap (tsqContentCaptures captureCfg))).map (fun c => c.node.text)
    ∧ (ms.foldl (tsqProcessMatch captureCfg) acc).contexts
        = acc.contexts ++ ms.filterMap (tsqMatchEntry captureCfg) := by
  intro ms
  induction ms with
  | nil =>
    intro acc
    refine ⟨?_, ?_, ?_⟩ <;> simp [dedupByIdAux]
  | cons m ms ih =>
    intro acc
    simp only [List.foldl_cons, List.flatMap_cons]
    obtain ⟨hs1, hs2, hs3⟩ := tsqProcessMatch_spec captureCfg acc m
    obtain ⟨hl1, hl2, hl3⟩ := ih (tsqProcessMatch captureCfg acc m)
    rw [dedupByIdAux_append]
    refine ⟨?_, ?_, ?_⟩
    · rw [hl1, hs1]
      simp [List.append_assoc]
    · rw [hl2, hs2, hs1]
      simp [List.append_assoc]
    · rw [hl3, hs3]
      rcases hentry : tsqMatchEntry captureCfg m with _ | e
      · simp [List.filterMap_cons, hentry]
      · simp [List.filterMap_cons, hentry]

/-- **C6** — For a `tsq` watch without a `capture` setting: the content
captures of each match are exactly the maximal captures (those whose node
span is not strictly contained in another capture's span in the same
match); the emitted text is the source text of the content nodes,
deduplicated by node identity across matches in order, joined by a blank
line; and the attached context is the per-match sequence of non-content
capture records, with empty entries skipped. -/
theorem claim_C6 :
    (∀ (m : List TSCapture) (c : TSCapture), c ∈ m →
      (c ∈ tsqContentCaptures none m ↔ TsqMaximal m c))
    ∧ (∀ matchList : List (List TSCapture),
        (tsqExtract none matchList).text =
          String.intercalate "\n\n"
            ((dedupById (matchList.flatMap (tsqContentCaptures none))).map
              (fun c => c.node.text)))
    ∧ (∀ matchList : List (List TSCapture),
        (tsqExtract none matchList).context =
          [matchList.filterMap (tsqMatchEntry none)]) := by
  refine ⟨tsqContent_mem, ?_, ?_⟩
  · intro matchList
    unfold tsqExtract dedupById
    dsimp only
    obtain ⟨_, h2, _⟩ := tsqLoop_spec none matchList ⟨[], [], []⟩
    rw [h2]
    rfl
  · intro matchList
    unfold tsqExtract
    dsimp only
    obtain ⟨_, _, h3⟩ := tsqLoop_spec none matchList ⟨[], [], []⟩
    rw [h3]
    rfl

/-- Witness for C6: in a match holding a function-declaration capture and
a name capture nested inside it, only the outer capture is content, the
nested one lands in the context entry, and its text is emitted once. -/
theorem claim_C6_witness :
    (outerC ∈ tsqContentCaptures none [outerC, innerC])
    ∧ (tsqExtract none [[outerC, innerC]]).text = "function foo()"
    ∧ (tsqExtract none [[outerC, innerC]]).context = [[[("name", "foo")]]] := by
  refine ⟨(claim_C6.1 [outerC, innerC] outerC (by decide)).mpr (by
    unfold TsqMaximal
    decide), ?_, ?_⟩
  · rw [claim_C6.2.1 [[outerC, innerC]]]
    decide
  · rw [claim_C6.2.2 [[outerC, innerC]]]
    decide

end Theorems

end Makesure
